import Mathlib

/-!
monsv: a two-process supervisor.

A shallow embedding of `task.go` and `monsv.go`.

Every goroutine of the program is a small program counter; a step of the
embedding is one statement (or one channel operation) of one goroutine.  The
operating system (process start, process termination, the clock) supplies the
remaining events.  An event that the source could not perform in the given
state (a receive on an empty channel, a send on a full one, a sleep that has
not elapsed) has no successor state.

Times are natural numbers of nanoseconds, as in Go's `time.Duration`.

The first part holds the definitions: the task of `task.go` with its goroutines
(`step`, `run`), then the supervisor of `monsv.go` (`sysStep`, `sysRun`).  The second
part holds the theorems, by claim.
-/

namespace Monsv

/-! ## Constants (`monsv.go`, lines 15-30) -/

/-- Command `up`. -/
def up : String := "up"
/-- Command `down`. -/
def down : String := "down"
/-- Command `status`. -/
def status : String := "status"
/-- Command `exit`. -/
def exit : String := "exit"

/-- Go's `time.Second`, in nanoseconds. -/
def second : Nat := 1000000000

/-- The list `cmds`. -/
def cmds : List String := [up, down, status, exit]
/-- The variable `restartWait`. -/
def restartWait : Nat := second
/-- The variable `timeout`. -/
def timeout : Nat := 7 * second

/-! ## Data model (`task.go`, lines 14-33) -/

/-- A Go `error`: `none` is `nil`, `some msg` an error with text `msg`. -/
abbrev Err := Option String

/-- The signals the program sends. -/
inductive Signal
  | SIGTERM
  | SIGKILL
  | SIGALRM
  deriving DecidableEq, Repr

/-- An `os.ProcessState`: the wait status of a terminated process.  The zero value
has code `0`.  A non-zero code stands for any unsuccessful termination (non-zero
exit status or death by signal). -/
structure ProcessState where
  code : Nat
  deriving DecidableEq, Repr

/-- Renderers of the Go standard library used by `status`:
`time.Duration.String` and `os.ProcessState.String`. -/
structure Fmt where
  dur : Nat → String
  ps : ProcessState → String

/-- The error returned by `exec.Cmd.Wait` for a process that terminated with `ps`:
`nil` exactly for exit status 0, otherwise an `*exec.ExitError`, whose text is
that of the process state. -/
def waitErr (F : Fmt) (ps : ProcessState) : Err :=
  if ps.code = 0 then none else some (F.ps ps)

/-- An `os.Process` handle.  `term` is the operating system's record: `none` while
the program runs, `some ps` once it has terminated.  `done` is set when `Wait`
has returned for the handle. -/
structure Process where
  pid : Nat
  term : Option ProcessState
  done : Bool
  deriving DecidableEq, Repr

/-- The text of `os.ErrProcessDone`. -/
def errProcessDone : String := "os: process already finished"

/-- Go's `os.Process.Signal` for a child of the calling process: an error once `Wait`
has returned for the handle, and a successful `kill(2)` before that (also on a
child that has terminated and has not been waited for). -/
def Process.Signal (p : Process) (_sig : Signal) : Err :=
  if p.done then some errProcessDone else none

/-- An `exec.Cmd`: `process` is `nil` until `Start` has succeeded. -/
structure Cmd where
  process : Option Process
  deriving DecidableEq, Repr

/-- The record `wstatus` (the mutex is not modelled: every step is atomic).
`exited = none` is the zero `time.Time`. -/
structure WStatus where
  isRunning : Bool
  ps : ProcessState
  started : Nat
  exited : Option Nat
  deriving DecidableEq, Repr

/-- Where a caller of `transition` stands. -/
inductive CallPc
  /-- At the `switch` (lines 159-164), before its send has completed. -/
  | send
  /-- In the `select` (line 166); the timer of `time.After(timeout)` fires at `deadline`. -/
  | wait (deadline : Nat)
  /-- Returned, with the error (`none` is `nil`). -/
  | ret (err : Err)
  deriving DecidableEq, Repr

/-- One invocation of `transition(w)`: its argument, the buffer of its channel
`cb` (capacity 1) and its program counter.  A channel `cb` is named by the
position of its call in `Task.calls`. -/
structure Call where
  w : String
  cb : Option Bool
  pc : CallPc
  deriving DecidableEq, Repr

/-- Where the goroutine `run` stands (line numbers of `task.go`). -/
inductive LoopPc
  /-- Line 116: `callback := <-t.upc`. -/
  | idle
  /-- Line 118: the loop condition `t.want != down`. -/
  | cond (callback : Option Nat)
  /-- Line 119: `t.spawn(...)`. -/
  | spawn (callback : Option Nat)
  /-- Lines 121-123 (`ok = false`) and 128-130 (`ok = true`): the acknowledgment. -/
  | ackUp (callback : Option Nat) (ok : Bool)
  /-- Lines 125 and 141: `time.Sleep(restartWait)`, over at `wakeAt`. -/
  | sleep (wakeAt : Nat)
  /-- Line 135: the `select`. -/
  | select
  /-- Line 137: `t.exitc <- err`. -/
  | publish (err : Err)
  /-- Lines 139-145: the restart decision. -/
  | check (err : Err)
  /-- Line 149: `<-exitc`. -/
  | awaitExit (callback : Nat)
  /-- Line 150: `callback <- true`. -/
  | ackDown (callback : Nat)
  deriving DecidableEq, Repr

/-- The goroutine `wait` started at line 133 and its channel `exitc`.  One waiter is
enough: when line 133 starts one, none is running (`Task.Inv`, at `ackUp`). -/
inductive Waiter
  /-- No waiter is running. -/
  | absent
  /-- Line 95: inside `t.cmd.Wait()`. -/
  | blocked
  /-- Line 103: `exitc <- err`. -/
  | ready (err : Err)
  deriving DecidableEq, Repr

/-- One recorded call of `signal`: the signal and the two results. -/
structure SigCall where
  sig : Signal
  present : Bool
  err : Err
  deriving DecidableEq, Repr

/-- A `task` together with the goroutines that work on it: its `run` loop (`pc`), the
waiter of the current iteration (`waiter`), and the callers of `transition` (`calls`).
`upc` and `downc` are channels of capacity 1, so their content is at most one element;
`exitc` is unbuffered and has no content.  The fields `args` and `env` play no part and
are left out.  `now` is the clock.  `sigs` records the calls of `signal` made on this
task, oldest first. -/
structure Task where
  path : String
  want : String
  upc : Option Nat
  downc : Option Nat
  wstatus : WStatus
  cmd : Option Cmd
  isLog : Bool
  pc : LoopPc
  waiter : Waiter
  calls : List Call
  now : Nat
  sigs : List SigCall
  deriving DecidableEq, Repr

/-- `NewTask` (lines 52-62), with the `run` goroutine at its first statement. -/
def NewTask (path : String) : Task where
  path := path
  want := up
  upc := none
  downc := none
  wstatus := ⟨false, ⟨0⟩, 0, none⟩
  cmd := none
  isLog := false
  pc := .idle
  waiter := .absent
  calls := []
  now := 0
  sigs := []

/-- The process handle `t.cmd.Process`, when `t.cmd` and it are non-nil. -/
def Task.process (t : Task) : Option Process :=
  match t.cmd with
  | some c => c.process
  | none => none

/-- The method `status` (lines 35-50), read at the clock value `t.now`.  The pid is that of
`t.cmd.Process`; where the source would dereference a nil pointer the pid is given as 0
(`isRunning` holds only with a process handle, see `isRunning_iff_handle`). -/
def Task.status (F : Fmt) (t : Task) : String :=
  if t.wstatus.isRunning then
    t.path ++ ": " ++ up ++ " (pid " ++
      toString (match t.process with | some p => p.pid | none => 0) ++ ") " ++
      F.dur (t.now - t.wstatus.started)
  else match t.wstatus.exited with
    | some e => t.path ++ ": " ++ down ++ " (" ++ F.ps t.wstatus.ps ++ ") " ++ F.dur (t.now - e)
    | none => t.path ++ ": " ++ down ++ " (" ++ F.ps t.wstatus.ps ++ ")"

/-- The method `signal` (lines 84-89): the two results. -/
def Task.signal (t : Task) (sig : Signal) : Bool × Err :=
  match t.cmd with
  | some c =>
    match c.process with
    | some p => (true, p.Signal sig)
    | none => (false, none)
  | none => (false, none)

/-- A call of `signal`, recorded in `sigs`. -/
def Task.doSignal (t : Task) (sig : Signal) : Task :=
  { t with sigs := t.sigs ++ [⟨sig, (t.signal sig).1, (t.signal sig).2⟩] }

/-- A send on the channel `cb` of call `i`: possible when its buffer is empty. -/
def Task.sendCb (t : Task) (i : Nat) (b : Bool) : Option Task :=
  match t.calls[i]? with
  | some c =>
    match c.cb with
    | none => some { t with calls := t.calls.set i { c with cb := some b } }
    | some _ => none
  | none => none

/-- The statement `if callback != nil { callback <- b }`. -/
def Task.ackCb (t : Task) (callback : Option Nat) (b : Bool) : Option Task :=
  match callback with
  | some i => t.sendCb i b
  | none => some t

/-- The events of a task: the statements of its goroutines and the actions of
the operating system. -/
inductive Event
  /-- The clock advances by `d`. -/
  | tick (d : Nat)
  /-- A goroutine calls `transition(w)`: line 157. -/
  | call (w : String)
  /-- Lines 159-166 of call `i`: its send completes and it enters the `select`. -/
  | callSend (i : Nat)
  /-- Line 167 of call `i`: `case ok := <-cb`. -/
  | callAck (i : Nat)
  /-- Line 173 of call `i`: `case <-time.After(timeout)`. -/
  | callTimeout (i : Nat)
  /-- Line 116, and the loop initialisation `t.want = up` of line 118. -/
  | recvUp
  /-- Line 118: the loop condition. -/
  | cond
  /-- Line 119: `spawn` returns `nil`; the new process has the given pid. -/
  | spawnOk (pid : Nat)
  /-- Line 119: `spawn` returns an error. -/
  | spawnFail
  /-- Lines 121-125 or 128-133: the acknowledgment, then the sleep or the waiter. -/
  | ack
  /-- The end of a `time.Sleep`, and the loop's post statement. -/
  | wake
  /-- Line 136: `case err := <-exitc`. -/
  | recvExit
  /-- Line 137: a receiver takes the value sent on `t.exitc`. -/
  | publish
  /-- Lines 139-145, and the loop's post statement. -/
  | check
  /-- Lines 146-148: `case callback := <-t.downc`, `t.want = down`, `t.signal(SIGTERM)`. -/
  | recvDown
  /-- Line 149: `<-exitc`. -/
  | recvExitDown
  /-- Line 150: `callback <- true`, and the loop's post statement. -/
  | ackDown
  /-- The operating system: the process of `t.cmd` terminates with `ps`. -/
  | procExit (ps : ProcessState)
  /-- Lines 92-101 of the waiter: `Wait` returns and the exit is recorded; or the waiter
  finds `t.cmd == nil` and returns.  (A waiter on a command that did not start has no
  step: line 98 would dereference a nil `ProcessState`; line 133 is not reached then.) -/
  | waitReturn
  /-- A goroutine other than `run` calls `t.signal(sig)`. -/
  | signal (sig : Signal)
  deriving DecidableEq, Repr

/-- One step of call `i` of `transition` (lines 156-177). -/
def Task.callStep (F : Fmt) (t : Task) (i : Nat) (e : Event) : Option Task :=
  match t.calls[i]? with
  | none => none
  | some c =>
    match e, c.pc with
    | .callSend _, .send =>
      let entered : Call := { c with pc := .wait (t.now + timeout) }
      if c.w = up then
        match t.upc with
        | none => some { t with upc := some i, calls := t.calls.set i entered }
        | some _ => none
      else if c.w = down then
        match t.downc with
        | none => some { t with downc := some i, calls := t.calls.set i entered }
        | some _ => none
      else some { t with calls := t.calls.set i entered }
    | .callAck _, .wait _ =>
      match c.cb with
      | some true => some { t with calls := t.calls.set i { c with cb := none, pc := .ret none } }
      | some false =>
        some { t with calls := t.calls.set i { c with cb := none, pc := .ret (some (t.status F)) } }
      | none => none
    | .callTimeout _, .wait deadline =>
      if deadline ≤ t.now then
        some { t with calls := t.calls.set i { c with pc := .ret (some ("timeout: " ++ t.status F)) } }
      else none
    | _, _ => none

/-- The method `spawn` (lines 64-82) when `Start` succeeds with process `pid`. -/
def Task.spawnOk (t : Task) (pid : Nat) : Task :=
  { t with
    cmd := some ⟨some ⟨pid, none, false⟩⟩
    wstatus := { t.wstatus with started := t.now, isRunning := true } }

/-- The method `spawn` (lines 64-82) when `Start` fails. -/
def Task.spawnFail (t : Task) : Task :=
  { t with cmd := some ⟨none⟩ }

/-- One step of a task and its goroutines: the state after the event, or `none` when the
event is not possible in the state (the goroutine is elsewhere, or the statement blocks). -/
def step (F : Fmt) (t : Task) (e : Event) : Option Task :=
  match e with
  | .tick d => some { t with now := t.now + d }
  | .call w => some { t with calls := t.calls ++ [⟨w, none, .send⟩] }
  | .callSend i => t.callStep F i e
  | .callAck i => t.callStep F i e
  | .callTimeout i => t.callStep F i e
  | .recvUp =>
    match t.pc, t.upc with
    | .idle, some cb => some { t with upc := none, want := up, pc := .cond (some cb) }
    | _, _ => none
  | .cond =>
    match t.pc with
    | .cond cb => if t.want ≠ down then some { t with pc := .spawn cb } else some { t with pc := .idle }
    | _ => none
  | .spawnOk pid =>
    match t.pc with
    | .spawn cb => some { t.spawnOk pid with pc := .ackUp cb true }
    | _ => none
  | .spawnFail =>
    match t.pc with
    | .spawn cb => some { t.spawnFail with pc := .ackUp cb false }
    | _ => none
  | .ack =>
    match t.pc with
    | .ackUp cb true => (t.ackCb cb true).map fun t1 => { t1 with waiter := .blocked, pc := .select }
    | .ackUp cb false => (t.ackCb cb false).map fun t1 => { t1 with pc := .sleep (t1.now + restartWait) }
    | _ => none
  | .wake =>
    match t.pc with
    | .sleep wakeAt => if wakeAt ≤ t.now then some { t with pc := .cond none } else none
    | _ => none
  | .recvExit =>
    match t.pc, t.waiter with
    | .select, .ready err => some { t with waiter := .absent, pc := .publish err }
    | _, _ => none
  | .publish =>
    match t.pc with
    | .publish err => some { t with pc := .check err }
    | _ => none
  | .check =>
    match t.pc with
    | .check (some _) =>
      if t.now - t.wstatus.started < second then some { t with pc := .sleep (t.now + restartWait) }
      else some { t with pc := .cond none }
    | .check none => some { t with want := down, pc := .cond none }
    | _ => none
  | .recvDown =>
    match t.pc, t.downc with
    | .select, some cb =>
      some { ({ t with downc := none, want := down } : Task).doSignal .SIGTERM with pc := .awaitExit cb }
    | _, _ => none
  | .recvExitDown =>
    match t.pc, t.waiter with
    | .awaitExit cb, .ready _ => some { t with waiter := .absent, pc := .ackDown cb }
    | _, _ => none
  | .ackDown =>
    match t.pc with
    | .ackDown cb => (t.sendCb cb true).map fun t1 => { t1 with pc := .cond none }
    | _ => none
  | .procExit ps =>
    match t.cmd with
    | some ⟨some p⟩ =>
      match p.term with
      | none => some { t with cmd := some ⟨some { p with term := some ps }⟩ }
      | some _ => none
    | _ => none
  | .waitReturn =>
    match t.waiter, t.cmd with
    | .blocked, some ⟨some p⟩ =>
      match p.term with
      | some ps =>
        some { t with
          cmd := some ⟨some { p with done := true }⟩
          wstatus := { t.wstatus with ps := ps, exited := some t.now, isRunning := false }
          waiter := .ready (waitErr F ps) }
      | none => none
    | .blocked, none => some { t with waiter := .absent }
    | _, _ => none
  | .signal sig => some (t.doSignal sig)

/-- The task after a sequence of events, if every one of them was possible. -/
def run (F : Fmt) (t : Task) : List Event → Option Task
  | [] => some t
  | e :: es => (step F t e).bind fun t1 => run F t1 es

/-- A concrete renderer, for the examples. -/
def fmt0 : Fmt where
  dur := fun n => toString n ++ "ns"
  ps := fun p => "exit status " ++ toString p.code

/-! ## Invariants and trace functions -/

/-- No process of the task is waited for: there is no waiter, `isRunning` is
false and `Wait` has returned for the process handle, if there is one. -/
def Task.quiet (t : Task) : Prop :=
  t.waiter = .absent ∧ t.wstatus.isRunning = false ∧ ∀ p, t.process = some p → p.done = true

/-- A process has been started and no waiter runs yet. -/
def Task.fresh (t : Task) : Prop :=
  t.waiter = .absent ∧ t.wstatus.isRunning = true ∧ ∃ p, t.process = some p ∧ p.done = false

/-- A waiter runs: it is inside `Wait` on a handle that is not done, or it has
recorded the exit and offers the result on `exitc`. -/
def Task.waited (t : Task) : Prop :=
  (t.waiter = .blocked ∧ t.wstatus.isRunning = true ∧ ∃ p, t.process = some p ∧ p.done = false) ∨
  ((∃ err, t.waiter = .ready err) ∧ t.wstatus.isRunning = false ∧
    ∃ p, t.process = some p ∧ p.done = true)

/-- The invariant of the `run` loop: what holds at each of its statements. -/
def Task.Inv (t : Task) : Prop :=
  (∀ p, t.process = some p → p.done = true → p.term.isSome = true) ∧
  match t.pc with
  | .idle => t.quiet
  | .cond _ => t.quiet ∧ (t.want = up ∨ t.want = down)
  | .spawn _ => t.quiet ∧ t.want = up
  | .ackUp _ true => t.fresh ∧ t.want = up
  | .ackUp _ false => t.quiet ∧ t.process = none ∧ t.want = up
  | .sleep _ => t.quiet ∧ t.want = up
  | .select => t.waited ∧ t.want = up
  | .publish _ => t.quiet ∧ t.want = up
  | .check _ => t.quiet ∧ t.want = up
  | .awaitExit _ => t.waited ∧ t.want = down
  | .ackDown _ => t.quiet ∧ t.want = down

/-- The events `spawnOk`. -/
def Event.isSpawnOk : Event → Bool
  | .spawnOk _ => true
  | _ => false

/-- The event `waitReturn`. -/
def Event.isWaitReturn : Event → Bool
  | .waitReturn => true
  | _ => false

/-- The value of a flag that the events of `A` set and the events of `B` clear. -/
def lastSet (A B : Event → Bool) (b : Bool) : List Event → Bool
  | [] => b
  | e :: es => lastSet A B (if A e then true else if B e then false else b) es

/-- The steps of `step`, one rule per statement: `Step F t e t1` holds exactly when
`step F t e = some t1`. -/
inductive Step (F : Fmt) : Task → Event → Task → Prop
  | tick (t : Task) (d : Nat) : Step F t (.tick d) { t with now := t.now + d }
  | call (t : Task) (w : String) : Step F t (.call w) { t with calls := t.calls ++ [⟨w, none, .send⟩] }
  | callSend (t t1 : Task) (i : Nat) : t.callStep F i (.callSend i) = some t1 → Step F t (.callSend i) t1
  | callAck (t t1 : Task) (i : Nat) : t.callStep F i (.callAck i) = some t1 → Step F t (.callAck i) t1
  | callTimeout (t t1 : Task) (i : Nat) :
      t.callStep F i (.callTimeout i) = some t1 → Step F t (.callTimeout i) t1
  | recvUp (t : Task) (cb : Nat) : t.pc = .idle → t.upc = some cb →
      Step F t .recvUp { t with upc := none, want := up, pc := .cond (some cb) }
  | condLoop (t : Task) (cb : Option Nat) : t.pc = .cond cb → t.want ≠ down →
      Step F t .cond { t with pc := .spawn cb }
  | condExit (t : Task) (cb : Option Nat) : t.pc = .cond cb → t.want = down →
      Step F t .cond { t with pc := .idle }
  | spawnOk (t : Task) (cb : Option Nat) (pid : Nat) : t.pc = .spawn cb →
      Step F t (.spawnOk pid) { t.spawnOk pid with pc := .ackUp cb true }
  | spawnFail (t : Task) (cb : Option Nat) : t.pc = .spawn cb →
      Step F t .spawnFail { t.spawnFail with pc := .ackUp cb false }
  | ackTrue (t t1 : Task) (cb : Option Nat) : t.pc = .ackUp cb true → t.ackCb cb true = some t1 →
      Step F t .ack { t1 with waiter := .blocked, pc := .select }
  | ackFalse (t t1 : Task) (cb : Option Nat) : t.pc = .ackUp cb false → t.ackCb cb false = some t1 →
      Step F t .ack { t1 with pc := .sleep (t1.now + restartWait) }
  | wake (t : Task) (wakeAt : Nat) : t.pc = .sleep wakeAt → wakeAt ≤ t.now →
      Step F t .wake { t with pc := .cond none }
  | recvExit (t : Task) (err : Err) : t.pc = .select → t.waiter = .ready err →
      Step F t .recvExit { t with waiter := .absent, pc := .publish err }
  | publish (t : Task) (err : Err) : t.pc = .publish err → Step F t .publish { t with pc := .check err }
  | checkFast (t : Task) (msg : String) : t.pc = .check (some msg) →
      t.now - t.wstatus.started < second →
      Step F t .check { t with pc := .sleep (t.now + restartWait) }
  | checkSlow (t : Task) (msg : String) : t.pc = .check (some msg) →
      ¬ t.now - t.wstatus.started < second →
      Step F t .check { t with pc := .cond none }
  | checkClean (t : Task) : t.pc = .check none →
      Step F t .check { t with want := down, pc := .cond none }
  | recvDown (t : Task) (cb : Nat) : t.pc = .select → t.downc = some cb →
      Step F t .recvDown
        { ({ t with downc := none, want := down } : Task).doSignal .SIGTERM with pc := .awaitExit cb }
  | recvExitDown (t : Task) (cb : Nat) (err : Err) : t.pc = .awaitExit cb → t.waiter = .ready err →
      Step F t .recvExitDown { t with waiter := .absent, pc := .ackDown cb }
  | ackDown (t t1 : Task) (cb : Nat) : t.pc = .ackDown cb → t.sendCb cb true = some t1 →
      Step F t .ackDown { t1 with pc := .cond none }
  | procExit (t : Task) (p : Process) (ps : ProcessState) : t.cmd = some ⟨some p⟩ → p.term = none →
      Step F t (.procExit ps) { t with cmd := some ⟨some { p with term := some ps }⟩ }
  | waitReturn (t : Task) (p : Process) (ps : ProcessState) : t.waiter = .blocked →
      t.cmd = some ⟨some p⟩ → p.term = some ps →
      Step F t .waitReturn
        { t with
          cmd := some ⟨some { p with done := true }⟩
          wstatus := { t.wstatus with ps := ps, exited := some t.now, isRunning := false }
          waiter := .ready (waitErr F ps) }
  | waitNil (t : Task) : t.waiter = .blocked → t.cmd = none →
      Step F t .waitReturn { t with waiter := .absent }
  | signal (t : Task) (sig : Signal) : Step F t (.signal sig) (t.doSignal sig)

/-- The events by which the run loop receives the exit of its process. -/
def Event.isExitRecv : Event → Bool
  | .recvExit => true
  | .recvExitDown => true
  | _ => false

/-- The events `procExit`. -/
def Event.isProcExit : Event → Bool
  | .procExit _ => true
  | _ => false

/-- The events `spawnFail`. -/
def Event.isSpawnFail : Event → Bool
  | .spawnFail => true
  | _ => false

/-- The number of processes that the run loop has started and whose exit it has
not received, as its program counter tells. -/
def Task.pending (t : Task) : Nat :=
  match t.pc with
  | .ackUp _ true => 1
  | .select => 1
  | .awaitExit _ => 1
  | _ => 0

/-- The number of processes of the handle `t.cmd.Process` that the operating
system still runs. -/
def Task.osLive (t : Task) : Nat :=
  match t.process with
  | some p => if p.term.isNone then 1 else 0
  | none => 0

/-- The run loop is on its way out of the inner loop after a clean exit: the waiter
offers a `nil` exit to the `select`; or the run loop is about to publish or to examine a
`nil` exit; or `want` is `down` and the run loop is in the down branch of the `select`
(lines 149-150), at the loop condition, or back at line 116. -/
def Task.stopping (t : Task) : Prop :=
  (t.pc = .select ∧ t.waiter = .ready none) ∨ t.pc = .publish none ∨ t.pc = .check none ∨
  (t.want = down ∧
    ((∃ cb, t.pc = .awaitExit cb) ∨ (∃ cb, t.pc = .ackDown cb) ∨ t.pc = .cond none ∨ t.pc = .idle))

/-- The events of a successful start of the service: `transition(up)` is called,
the run loop takes the request, spawns pid 100, and acknowledges. -/
def upTrace : List Event :=
  [.call up, .callSend 0, .recvUp, .cond, .spawnOk 100, .ack, .callAck 0]

/-- The task `sv` after `upTrace`: up, process 100 running, the run loop in its `select`. -/
def upTask : Task where
  path := "sv"
  want := up
  upc := none
  downc := none
  wstatus := ⟨true, ⟨0⟩, 0, none⟩
  cmd := some ⟨some ⟨100, none, false⟩⟩
  isLog := false
  pc := .select
  waiter := .blocked
  calls := [⟨up, none, .ret none⟩]
  now := 0
  sigs := []

/-- The events of a spawn attempt. -/
def Event.isSpawn : Event → Bool
  | .spawnOk _ => true
  | .spawnFail => true
  | _ => false

/-- The clock has reached `wakeAt`, unless the run loop still sleeps until `wakeAt`. -/
def Task.sleptUntil (wakeAt : Nat) (t : Task) : Prop :=
  t.pc = .sleep wakeAt ∨ wakeAt ≤ t.now

/-- The recorded times are not in the future. -/
def Task.timed (t : Task) : Prop :=
  t.wstatus.started ≤ t.now ∧ ∀ x, t.wstatus.exited = some x → x ≤ t.now

/-- The task `upTask` once its process has exited with status 0 and the waiter
has recorded the exit. -/
def cleanExitTask : Task :=
  { upTask with
    cmd := some ⟨some ⟨100, some ⟨0⟩, true⟩⟩
    wstatus := ⟨false, ⟨0⟩, 0, some 0⟩
    waiter := .ready none }

/-- The task `upTask` once its process has exited with status 1, the waiter has
recorded the exit and the run loop has published it. -/
def crashedTask : Task :=
  { upTask with
    cmd := some ⟨some ⟨100, some ⟨1⟩, true⟩⟩
    wstatus := ⟨false, ⟨1⟩, 0, some 0⟩
    waiter := .absent
    pc := .check (some "exit status 1") }

/-- The program counter of call `i` of `transition`. -/
def Task.callPc (t : Task) (i : Nat) : Option CallPc := (t.calls[i]?).map Call.pc

/-- The argument of call `i` of `transition`. -/
def Task.callW (t : Task) (i : Nat) : Option String := (t.calls[i]?).map Call.w

/-- The buffer of the channel `cb` of call `i` of `transition`. -/
def Task.callCb (t : Task) (i : Nat) : Option (Option Bool) := (t.calls[i]?).map Call.cb

/-- The run loop is at line 116 or between a spawn attempt that failed and the next
one: it does not reach its `select` unless a spawn succeeds. -/
def Task.retrying (t : Task) : Prop :=
  match t.pc with
  | .idle => True
  | .cond _ => True
  | .spawn _ => True
  | .ackUp _ false => True
  | .sleep _ => True
  | _ => False

/-- Call `i` is a `transition(down)` that stands before its send, the down queue
holds the request of call `j`, and the run loop is away from its `select`. -/
def Task.blockedDown (i j : Nat) (t : Task) : Prop :=
  t.callPc i = some .send ∧ t.callW i = some down ∧ t.downc = some j ∧ t.retrying

/-- Call `i` has put its request in the up queue, has no acknowledgment and waits in its
`select`, its timer due at `deadline`, while the run loop is in its own `select`. -/
def Task.upWaiting (i deadline : Nat) (t : Task) : Prop :=
  t.pc = .select ∧ t.upc = some i ∧ t.callCb i = some none ∧ t.callPc i = some (.wait deadline)

/-- Call `i` has returned the error `msg`; its request is still in the up queue and the
run loop is in its `select`. -/
def Task.upTimedOut (i : Nat) (msg : String) (t : Task) : Prop :=
  t.pc = .select ∧ t.upc = some i ∧ t.callPc i = some (.ret (some msg))

/-- The service was started, crashed at once, and cannot be started again: the events
up to the first failed spawn attempt and the sleep that follows it. -/
def crashLoopTrace : List Event :=
  upTrace ++ [.procExit ⟨1⟩, .waitReturn, .recvExit, .publish, .check, .tick second, .wake, .cond,
    .spawnFail, .ack]

/-- Two calls of `transition(down)` one after the other: the first puts its request in
the down queue and returns the timeout error after `timeout`; the second is made. -/
def twoDownsTrace : List Event :=
  [.call down, .callSend 1, .tick timeout, .callTimeout 1, .call down]

/-- The task `sv` after `crashLoopTrace ++ twoDownsTrace`: the run loop sleeps after a
failed spawn, the down queue holds the request of call 1, which has returned the
timeout error, and call 2 stands before its send. -/
def staleDownTask : Task where
  path := "sv"
  want := up
  upc := none
  downc := some 1
  wstatus := ⟨false, ⟨1⟩, 0, some 0⟩
  cmd := some ⟨none⟩
  isLog := false
  pc := .sleep 2000000000
  waiter := .absent
  calls := [⟨up, none, .ret none⟩,
    ⟨down, none, .ret (some "timeout: sv: down (exit status 1) 8000000000ns")⟩,
    ⟨down, none, .send⟩]
  now := 8000000000
  sigs := []

/-- The task `upTask` when a second `transition(up)` has been called and has not sent
its request yet. -/
def upAgainTask : Task :=
  { upTask with calls := [⟨up, none, .ret none⟩, ⟨up, none, .send⟩] }

/-- The task `upAgainTask` 7 s after the second call has sent its request: the call still
waits in its `select`, its timer due. -/
def upDueTask : Task :=
  { upAgainTask with
    upc := some 1
    calls := [⟨up, none, .ret none⟩, ⟨up, none, .wait 7000000000⟩]
    now := 7000000000 }

/-- The task `upDueTask` when the second call has returned the timeout error. -/
def upTimedOutTask : Task :=
  { upDueTask with
    calls := [⟨up, none, .ret none⟩,
      ⟨up, none, .ret (some "timeout: sv: up (pid 100) 7000000000ns")⟩] }

/-- The task `upTask` once its process has exited with status 1 and the waiter has
recorded the exit: the waiter offers the error to the `select`. -/
def crashReadyTask : Task :=
  { upTask with
    cmd := some ⟨some ⟨100, some ⟨1⟩, true⟩⟩
    wstatus := ⟨false, ⟨1⟩, 0, some 0⟩
    waiter := .ready (some "exit status 1") }

/-! ## The supervisor (`monsv.go`) -/

/-- Where the goroutine `control` stands (line numbers of `monsv.go`). -/
inductive CtlPc
  /-- Not started yet (before line 151). -/
  | absent
  /-- Line 61: `for cmd := range ch`. -/
  | recv
  /-- Line 68: inside `inTask.transition(cmd)`, which is call `i` of the service task. -/
  | inCall (i : Nat)
  /-- Lines 65, 69, 71, 74, 79: `ch <- s`. -/
  | respond (s : String)
  /-- Line 76: `exitc <- os.Kill`. -/
  | exiting
  /-- Line 77: returned. -/
  | stopped
  deriving DecidableEq, Repr

/-- Where `main` stands (line numbers of `monsv.go`). -/
inductive MainPc
  /-- Line 145, first iteration: about to call `outTask.transition(up)`. -/
  | upLogger
  /-- Line 145, first iteration: inside that call, call `i` of the logger task. -/
  | upLoggerWait (i : Nat)
  /-- Line 145, second iteration: about to call `inTask.transition(up)`. -/
  | upService
  /-- Line 145, second iteration: inside that call, call `i` of the service task. -/
  | upServiceWait (i : Nat)
  /-- Line 156: `<-exitc`; `control` and `exits` have been started (lines 149-154). -/
  | waitSig
  /-- Line 159, first iteration: about to call `inTask.transition(down)`. -/
  | downService
  /-- Line 159, first iteration: inside that call, call `i` of the service task. -/
  | downServiceWait (i : Nat)
  /-- Line 159, second iteration: about to call `outTask.transition(down)`. -/
  | downLogger
  /-- Line 159, second iteration: inside that call, call `i` of the logger task. -/
  | downLoggerWait (i : Nat)
  /-- Line 163: `main` has returned and the program has ended. -/
  | finished
  /-- Line 146: `log.Fatal(err)`; the program has ended. -/
  | fatal (msg : String)
  deriving DecidableEq, Repr

/-- The program has ended. -/
def MainPc.ended : MainPc → Bool
  | .finished => true
  | .fatal _ => true
  | _ => false

/-- The supervisor: the two tasks, the flag `alarm`, the content of the channel `exitc`
of `main` (capacity 1; `true` when it holds a signal), the goroutines `main`, `control`
and `exits`, and the responses that `control` has sent on `ch`, oldest first. -/
structure System where
  inTask : Task
  outTask : Task
  alarm : Bool
  exitc : Bool
  main : MainPc
  ctl : CtlPc
  exitsOn : Bool
  resp : List String
  deriving DecidableEq, Repr

/-- The supervisor at line 144 of `main`: both tasks new, their `run` goroutines started. -/
def initSystem (svc lgr : String) (alarm : Bool) : System where
  inTask := NewTask svc
  outTask := { NewTask lgr with isLog := true }
  alarm := alarm
  exitc := false
  main := .upLogger
  ctl := .absent
  exitsOn := false
  resp := []

/-- The events of the supervisor. -/
inductive SysEvent
  /-- The clock advances by `d`. -/
  | tick (d : Nat)
  /-- An event of the service task and its goroutines. -/
  | service (e : Event)
  /-- An event of the logger task and its goroutines. -/
  | logger (e : Event)
  /-- The next statement of `main`. -/
  | main
  /-- SIGTERM or SIGINT arrives for the supervisor (registered at line 154). -/
  | osSignal
  /-- Line 61: `control` receives the command `cmd` from `ch`, and dispatches it up to
  its next channel operation. -/
  | ctlCmd (cmd : String)
  /-- Line 68: `transition` returns to `control`. -/
  | ctlReturn
  /-- A client takes the response that `control` sends on `ch`. -/
  | ctlRespond
  /-- Line 76: the send `exitc <- os.Kill` completes. -/
  | ctlExit
  deriving DecidableEq, Repr

/-- The events of a task that involve no goroutine of `monsv.go`. -/
def Event.isInternal : Event → Bool
  | .tick _ => false
  | .call _ => false
  | .signal _ => false
  | .publish => false
  | _ => true

/-- The body of the goroutine `exits` (lines 84-100) for one value received from
`inTask.exitc`. -/
def exitsService (F : Fmt) (s : System) : Option System :=
  if s.alarm then (step F s.outTask (.signal .SIGALRM)).map fun o => { s with outTask := o }
  else some s

/-- The dispatch of one command by `control` (lines 62-80), up to its next channel
operation. -/
def controlCmd (F : Fmt) (s : System) (cmd : String) : Option System :=
  if cmd = up ∨ cmd = down then
    if s.inTask.want = cmd then some { s with ctl := .respond (s.inTask.status F) }
    else (step F s.inTask (.call cmd)).map fun t =>
      { s with inTask := t, ctl := .inCall s.inTask.calls.length }
  else if cmd = status then
    some { s with ctl := .respond (s.inTask.status F ++ "\n" ++ s.outTask.status F) }
  else if cmd = exit then some { s with ctl := .exiting }
  else some { s with ctl := .respond (", ".intercalate cmds) }

/-- The next statement of `main` (lines 144-163). -/
def mainStep (F : Fmt) (s : System) : Option System :=
  match s.main with
  | .upLogger =>
    (step F s.outTask (.call up)).map fun t =>
      { s with outTask := t, main := .upLoggerWait s.outTask.calls.length }
  | .upLoggerWait i =>
    match s.outTask.callPc i with
    | some (.ret none) => some { s with main := .upService }
    | some (.ret (some msg)) => some { s with main := .fatal msg }
    | _ => none
  | .upService =>
    (step F s.inTask (.call up)).map fun t =>
      { s with inTask := t, main := .upServiceWait s.inTask.calls.length }
  | .upServiceWait i =>
    match s.inTask.callPc i with
    | some (.ret none) => some { s with main := .waitSig, ctl := .recv, exitsOn := true }
    | some (.ret (some msg)) => some { s with main := .fatal msg }
    | _ => none
  | .waitSig => if s.exitc then some { s with exitc := false, main := .downService } else none
  | .downService =>
    (step F s.inTask (.call down)).map fun t =>
      { s with inTask := t, main := .downServiceWait s.inTask.calls.length }
  | .downServiceWait i =>
    match s.inTask.callPc i with
    | some (.ret none) => some { s with main := .downLogger }
    | some (.ret (some _)) =>
      (step F s.inTask (.signal .SIGKILL)).map fun t => { s with inTask := t, main := .downLogger }
    | _ => none
  | .downLogger =>
    (step F s.outTask (.call down)).map fun t =>
      { s with outTask := t, main := .downLoggerWait s.outTask.calls.length }
  | .downLoggerWait i =>
    match s.outTask.callPc i with
    | some (.ret none) => some { s with main := .finished }
    | some (.ret (some _)) =>
      (step F s.outTask (.signal .SIGKILL)).map fun t => { s with outTask := t, main := .finished }
    | _ => none
  | .finished => none
  | .fatal _ => none

/-- One step of the supervisor.  Nothing happens once the program has ended. -/
def sysStep (F : Fmt) (s : System) (e : SysEvent) : Option System :=
  if s.main.ended then none else
  match e with
  | .tick d =>
    (step F s.inTask (.tick d)).bind fun t =>
      (step F s.outTask (.tick d)).map fun o => { s with inTask := t, outTask := o }
  | .service te =>
    if te.isInternal then (step F s.inTask te).map fun t => { s with inTask := t }
    else if te = .publish ∧ s.exitsOn = true then
      (step F s.inTask .publish).bind fun t => exitsService F { s with inTask := t }
    else none
  | .logger te =>
    if te.isInternal then (step F s.outTask te).map fun t => { s with outTask := t }
    else if te = .publish ∧ s.exitsOn = true then
      (step F s.outTask .publish).map fun t => { s with outTask := t }
    else none
  | .main => mainStep F s
  | .osSignal =>
    match s.main with
    | .upLogger => none
    | .upLoggerWait _ => none
    | .upService => none
    | .upServiceWait _ => none
    | _ => some { s with exitc := true }
  | .ctlCmd cmd =>
    match s.ctl with
    | .recv => controlCmd F s cmd
    | _ => none
  | .ctlReturn =>
    match s.ctl with
    | .inCall i =>
      match s.inTask.callPc i with
      | some (.ret (some msg)) => some { s with ctl := .respond msg }
      | some (.ret none) => some { s with ctl := .respond (s.inTask.status F) }
      | _ => none
    | _ => none
  | .ctlRespond =>
    match s.ctl with
    | .respond r => some { s with resp := s.resp ++ [r], ctl := .recv }
    | _ => none
  | .ctlExit =>
    match s.ctl with
    | .exiting => if s.exitc then none else some { s with exitc := true, ctl := .stopped }
    | _ => none

/-- The supervisor after a sequence of events, if every one of them was possible. -/
def sysRun (F : Fmt) (s : System) : List SysEvent → Option System
  | [] => some s
  | e :: es => (sysStep F s e).bind fun s1 => sysRun F s1 es

/-- The start of the supervisor: the logger is brought up (pid 200), then the service
(pid 100), and `main` starts `control` and `exits` and waits at line 156. -/
def startTrace : List SysEvent :=
  [.main, .logger (.callSend 0), .logger .recvUp, .logger .cond, .logger (.spawnOk 200),
   .logger .ack, .logger (.callAck 0), .main,
   .main, .service (.callSend 0), .service .recvUp, .service .cond, .service (.spawnOk 100),
   .service .ack, .service (.callAck 0), .main]

/-- The command `down` from start to end: `control` calls `transition(down)`, the run
loop takes the request and sends SIGTERM, the service process dies of it, the waiter
records the exit, the run loop acknowledges and leaves the inner loop, and `control`
responds. -/
def downTrace : List SysEvent :=
  [.ctlCmd down, .service (.callSend 1), .service .recvDown, .service (.procExit ⟨143⟩),
   .service .waitReturn, .service .recvExitDown, .service .ackDown, .service (.callAck 1),
   .ctlReturn, .ctlRespond, .service .cond]

/-- The service crashes at once and cannot be started again; the command `down` is
given and `transition(down)` returns the timeout error; then SIGTERM arrives for the
supervisor and `main` calls `transition(down)` on the service task. -/
def hangTrace : List SysEvent :=
  [.service (.procExit ⟨1⟩), .service .waitReturn, .service .recvExit, .service .publish,
   .service .check, .tick second, .service .wake, .service .cond, .service .spawnFail,
   .service .ack,
   .ctlCmd down, .service (.callSend 1), .tick timeout, .service (.callTimeout 1), .ctlReturn,
   .ctlRespond,
   .osSignal, .main, .main]

/-- The supervisor `sv`/`lg` with alarm forwarding, after `startTrace`: both tasks up. -/
def startedSystem : System where
  inTask := upTask
  outTask := { upTask with path := "lg", isLog := true, cmd := some ⟨some ⟨200, none, false⟩⟩ }
  alarm := true
  exitc := false
  main := .waitSig
  ctl := .recv
  exitsOn := true
  resp := []

/-- The supervisor after `startTrace ++ hangTrace`: `main` is inside
`inTask.transition(down)`, call 2 of the service task `staleDownTask`. -/
def hangSystem : System :=
  { startedSystem with
    inTask := staleDownTask
    outTask := { startedSystem.outTask with now := 8000000000, sigs := [⟨.SIGALRM, true, none⟩] }
    main := .downServiceWait 2
    resp := ["timeout: sv: down (exit status 1) 8000000000ns"] }

/-- The event `recvExit`: the run loop takes the exit in the first case of its `select`. -/
def Event.isRecvExit : Event → Bool
  | .recvExit => true
  | _ => false

/-- The event `publish`. -/
def Event.isPublish : Event → Bool
  | .publish => true
  | _ => false

/-- The number of exits that the run loop has taken in the first case of its `select`
and not sent on `t.exitc` yet: one at line 137, none elsewhere. -/
def Task.publishing (t : Task) : Nat :=
  match t.pc with
  | .publish _ => 1
  | _ => 0

/-! # Theorems -/

/-! ## The steps, and the invariant of the run loop -/

theorem sendCb_frame {t t1 : Task} {i : Nat} {b : Bool} (h : t.sendCb i b = some t1) :
    t1.pc = t.pc ∧ t1.waiter = t.waiter ∧ t1.wstatus = t.wstatus ∧ t1.cmd = t.cmd ∧
    t1.want = t.want ∧ t1.now = t.now ∧ t1.upc = t.upc ∧ t1.downc = t.downc ∧ t1.sigs = t.sigs := by
  unfold Task.sendCb at h
  split at h
  · split at h
    · cases h; simp
    · cases h
  · cases h

theorem ackCb_frame {t t1 : Task} {cb : Option Nat} {b : Bool} (h : t.ackCb cb b = some t1) :
    t1.pc = t.pc ∧ t1.waiter = t.waiter ∧ t1.wstatus = t.wstatus ∧ t1.cmd = t.cmd ∧
    t1.want = t.want ∧ t1.now = t.now ∧ t1.upc = t.upc ∧ t1.downc = t.downc ∧ t1.sigs = t.sigs := by
  unfold Task.ackCb at h
  split at h
  · exact sendCb_frame h
  · cases h; simp

theorem callStep_frame {F : Fmt} {t t1 : Task} {i : Nat} {e : Event} (h : t.callStep F i e = some t1) :
    t1.pc = t.pc ∧ t1.waiter = t.waiter ∧ t1.wstatus = t.wstatus ∧ t1.cmd = t.cmd ∧
    t1.want = t.want ∧ t1.now = t.now ∧ t1.sigs = t.sigs := by
  unfold Task.callStep at h
  split at h
  · cases h
  · split at h
    · split at h
      · split at h
        · cases h; simp
        · cases h
      · split at h
        · split at h
          · cases h; simp
          · cases h
        · cases h; simp
    · split at h
      · cases h; simp
      · cases h; simp
      · cases h
    · split at h
      · cases h; simp
      · cases h
    · cases h

theorem Inv_of_frame {t t1 : Task} (h : t.Inv) (hpc : t1.pc = t.pc) (hw : t1.waiter = t.waiter)
    (hs : t1.wstatus = t.wstatus) (hc : t1.cmd = t.cmd) (hwant : t1.want = t.want) : t1.Inv := by
  unfold Task.Inv Task.quiet Task.fresh Task.waited Task.process at *
  rw [hpc, hw, hs, hc, hwant]
  exact h

theorem step_rel {F : Fmt} {t t1 : Task} {e : Event} (hs : step F t e = some t1) : Step F t e t1 := by
  cases e with
  | tick d => simp [step] at hs; subst hs; exact .tick t d
  | call w => simp [step] at hs; subst hs; exact .call t w
  | callSend i => exact .callSend t t1 i (by simpa [step] using hs)
  | callAck i => exact .callAck t t1 i (by simpa [step] using hs)
  | callTimeout i => exact .callTimeout t t1 i (by simpa [step] using hs)
  | signal sig => simp [step] at hs; subst hs; exact .signal t sig
  | recvUp =>
    cases hpc : t.pc <;> cases hup : t.upc <;> simp [step, hpc, hup] at hs
    subst hs; exact .recvUp t _ hpc hup
  | cond =>
    cases hpc : t.pc <;> simp [step, hpc] at hs
    by_cases hw : t.want = down
    · simp [hw] at hs; subst hs; simpa [hw] using Step.condExit (F := F) t _ hpc hw
    · simp [hw] at hs; subst hs; exact .condLoop t _ hpc hw
  | spawnOk pid =>
    cases hpc : t.pc <;> simp [step, hpc] at hs
    subst hs; exact .spawnOk t _ pid hpc
  | spawnFail =>
    cases hpc : t.pc <;> simp [step, hpc] at hs
    subst hs; exact .spawnFail t _ hpc
  | ack =>
    cases hpc : t.pc with
    | ackUp cb ok =>
      cases ok with
      | true =>
        simp only [step, hpc, Option.map_eq_some'] at hs
        obtain ⟨t2, h2, rfl⟩ := hs
        exact .ackTrue t t2 cb hpc h2
      | false =>
        simp only [step, hpc, Option.map_eq_some'] at hs
        obtain ⟨t2, h2, rfl⟩ := hs
        exact .ackFalse t t2 cb hpc h2
    | _ => simp [step, hpc] at hs
  | wake =>
    cases hpc : t.pc <;> simp [step, hpc] at hs
    obtain ⟨hle, rfl⟩ := hs
    exact .wake t _ hpc hle
  | recvExit =>
    cases hpc : t.pc <;> cases hw : t.waiter <;> simp [step, hpc, hw] at hs
    subst hs; exact .recvExit t _ hpc hw
  | publish =>
    cases hpc : t.pc <;> simp [step, hpc] at hs
    subst hs; exact .publish t _ hpc
  | check =>
    cases hpc : t.pc with
    | check err =>
      cases err with
      | none => simp [step, hpc] at hs; subst hs; exact .checkClean t hpc
      | some msg =>
        by_cases hlt : t.now - t.wstatus.started < second
        · simp [step, hpc, hlt] at hs; subst hs; exact .checkFast t msg hpc hlt
        · simp only [step, hpc, hlt, if_false] at hs
          cases hs; exact .checkSlow t msg hpc hlt
    | _ => simp [step, hpc] at hs
  | recvDown =>
    cases hpc : t.pc <;> cases hd : t.downc <;> simp [step, hpc, hd] at hs
    subst hs; exact .recvDown t _ hpc hd
  | recvExitDown =>
    cases hpc : t.pc <;> cases hw : t.waiter <;> simp [step, hpc, hw] at hs
    subst hs; exact .recvExitDown t _ _ hpc hw
  | ackDown =>
    cases hpc : t.pc with
    | ackDown cb =>
      simp only [step, hpc, Option.map_eq_some'] at hs
      obtain ⟨t2, h2, rfl⟩ := hs
      exact .ackDown t t2 cb hpc h2
    | _ => simp [step, hpc] at hs
  | procExit ps =>
    rcases hc : t.cmd with _ | ⟨_ | p⟩ <;> simp [step, hc] at hs
    cases ht : p.term <;> simp [ht] at hs
    subst hs; exact .procExit t p ps hc ht
  | waitReturn =>
    cases hw : t.waiter <;> rcases hc : t.cmd with _ | ⟨_ | p⟩ <;> simp [step, hw, hc] at hs
    · subst hs; simpa [hc] using Step.waitNil (F := F) t hw hc
    · cases ht : p.term <;> simp [ht] at hs
      subst hs; simpa [hc, ht] using Step.waitReturn (F := F) t p _ hw hc ht

theorem Inv_step {F : Fmt} {t t1 : Task} {e : Event} (h : t.Inv) (hs : step F t e = some t1) :
    t1.Inv := by
  have hr := step_rel hs
  cases hr with
  | callSend _ i hc | callAck _ i hc | callTimeout _ i hc =>
    have f := callStep_frame hc
    exact Inv_of_frame h f.1 f.2.1 f.2.2.1 f.2.2.2.1 f.2.2.2.2.1
  | ackTrue t2 cb hpc hc | ackFalse t2 cb hpc hc =>
    have f := ackCb_frame hc
    simp only [Task.Inv, Task.quiet, Task.fresh, Task.waited, Task.process, hpc] at h ⊢
    simp only [f.2.1, f.2.2.1, f.2.2.2.1, f.2.2.2.2.1]
    simp_all
  | ackDown t2 cb hpc hc =>
    have f := sendCb_frame hc
    simp only [Task.Inv, Task.quiet, Task.fresh, Task.waited, Task.process, hpc] at h ⊢
    simp only [f.2.1, f.2.2.1, f.2.2.2.1, f.2.2.2.2.1]
    simp_all
  | procExit p ps hc ht | waitReturn p ps hw hc ht =>
    obtain ⟨path, want, upc, downc, ws, cmd, isLog, pc, waiter, calls, now, sigs⟩ := t
    obtain ⟨pid, term, done⟩ := p
    rcases pc with _ | _ | _ | ⟨_, _ | _⟩ | _ | _ | _ | _ | _ | _ <;> cases done <;>
      simp_all [Task.Inv, Task.quiet, Task.fresh, Task.waited, Task.process]
  | waitNil hw hc =>
    obtain ⟨path, want, upc, downc, ws, cmd, isLog, pc, waiter, calls, now, sigs⟩ := t
    rcases pc with _ | _ | _ | ⟨_, _ | _⟩ | _ | _ | _ | _ | _ | _ <;>
      simp_all [Task.Inv, Task.quiet, Task.fresh, Task.waited, Task.process]
  | recvExit err hpc hw | recvExitDown cb err hpc hw =>
    obtain ⟨path, want, upc, downc, ws, cmd, isLog, pc, waiter, calls, now, sigs⟩ := t
    rcases cmd with _ | ⟨_ | ⟨pid, term, done⟩⟩ <;>
      simp_all [Task.Inv, Task.quiet, Task.waited, Task.process]
  | _ =>
    simp_all [Task.Inv, Task.quiet, Task.fresh, Task.waited, Task.process, Task.spawnOk,
      Task.spawnFail, Task.doSignal]

theorem NewTask_Inv (path : String) : (NewTask path).Inv := by
  simp [NewTask, Task.Inv, Task.quiet, Task.process]

theorem run_cons {F : Fmt} {t : Task} {e : Event} {es : List Event} :
    run F t (e :: es) = (step F t e).bind fun t1 => run F t1 es := rfl

theorem run_append {F : Fmt} (a b : List Event) (t : Task) :
    run F t (a ++ b) = (run F t a).bind fun t1 => run F t1 b := by
  induction a generalizing t with
  | nil => rfl
  | cons e a ih =>
    simp only [List.cons_append, run_cons]
    cases step F t e with
    | none => rfl
    | some t1 => simpa using ih t1

theorem Inv_run {F : Fmt} {es : List Event} {t t1 : Task} (h : t.Inv) (hr : run F t es = some t1) :
    t1.Inv := by
  induction es generalizing t with
  | nil => cases hr; exact h
  | cons e es ih =>
    rw [run_cons] at hr
    cases hs : step F t e with
    | none => simp [hs] at hr
    | some t2 =>
      rw [hs] at hr
      exact ih (Inv_step h hs) hr

theorem lastSet_keep (A B : Event → Bool) (es : List Event) (h : ∀ x ∈ es, B x = false) :
    lastSet A B true es = true := by
  induction es with
  | nil => rfl
  | cons e es ih =>
    have hb : B e = false := h e (List.mem_cons_self _ _)
    have : (if A e then true else if B e then false else true) = true := by
      cases A e <;> simp [hb]
    simp only [lastSet, this]
    exact ih fun x hx => h x (List.mem_cons_of_mem _ hx)

theorem lastSet_true_iff (A B : Event → Bool) (es : List Event) (b : Bool) :
    lastSet A B b es = true ↔
      (b = true ∧ ∀ x ∈ es, B x = false) ∨
      ∃ pre e post, es = pre ++ e :: post ∧ A e = true ∧ ∀ x ∈ post, B x = false := by
  induction es generalizing b with
  | nil => simp [lastSet]
  | cons e es ih =>
    simp only [lastSet]
    rw [ih]
    constructor
    · rintro (⟨h1, h2⟩ | ⟨pre, x, post, rfl, hx, hp⟩)
      · by_cases hA : A e = true
        · exact Or.inr ⟨[], e, es, rfl, hA, h2⟩
        · by_cases hB : B e = true
          · simp [hA, hB] at h1
          · simp only [hA, hB] at h1
            left
            refine ⟨by simpa using h1, ?_⟩
            intro x hx
            rcases List.mem_cons.1 hx with rfl | hx
            · simpa using hB
            · exact h2 x hx
      · exact Or.inr ⟨e :: pre, x, post, rfl, hx, hp⟩
    · rintro (⟨h1, h2⟩ | ⟨pre, x, post, heq, hx, hp⟩)
      · left
        have hb : B e = false := h2 e (List.mem_cons_self _ _)
        refine ⟨?_, fun x hx => h2 x (List.mem_cons_of_mem _ hx)⟩
        cases A e <;> simp [hb, h1]
      · cases pre with
        | nil =>
          simp only [List.nil_append, List.cons.injEq] at heq
          obtain ⟨rfl, rfl⟩ := heq
          left
          exact ⟨by simp [hx], hp⟩
        | cons y pre =>
          simp only [List.cons_append, List.cons.injEq] at heq
          obtain ⟨rfl, rfl⟩ := heq
          exact Or.inr ⟨pre, x, post, rfl, hx, hp⟩

theorem isRunning_step {F : Fmt} {t t1 : Task} {e : Event} (h : t.Inv) (hs : step F t e = some t1) :
    t1.wstatus.isRunning =
      if e.isSpawnOk then true else if e.isWaitReturn then false else t.wstatus.isRunning := by
  have hr := step_rel hs
  cases hr with
  | callSend _ i hc | callAck _ i hc | callTimeout _ i hc =>
    simp [(callStep_frame hc).2.2.1, Event.isSpawnOk, Event.isWaitReturn]
  | ackTrue t2 cb hpc hc | ackFalse t2 cb hpc hc =>
    simp [(ackCb_frame hc).2.2.1, Event.isSpawnOk, Event.isWaitReturn]
  | ackDown t2 cb hpc hc =>
    simp [(sendCb_frame hc).2.2.1, Event.isSpawnOk, Event.isWaitReturn]
  | waitNil hw hc =>
    obtain ⟨path, want, upc, downc, ws, cmd, isLog, pc, waiter, calls, now, sigs⟩ := t
    rcases pc with _ | _ | _ | ⟨_, _ | _⟩ | _ | _ | _ | _ | _ | _ <;>
      simp_all [Task.Inv, Task.quiet, Task.fresh, Task.waited, Task.process]
  | _ => simp [Event.isSpawnOk, Event.isWaitReturn, Task.spawnOk, Task.spawnFail, Task.doSignal]

theorem isRunning_run {F : Fmt} {es : List Event} {t t1 : Task} (h : t.Inv) (hr : run F t es = some t1) :
    t1.wstatus.isRunning = lastSet Event.isSpawnOk Event.isWaitReturn t.wstatus.isRunning es := by
  induction es generalizing t with
  | nil => cases hr; rfl
  | cons e es ih =>
    rw [run_cons] at hr
    cases hs : step F t e with
    | none => simp [hs] at hr
    | some t2 =>
      rw [hs] at hr
      rw [ih (Inv_step h hs) hr, isRunning_step h hs]
      rfl

theorem isRunning_iff_handle {t : Task} (h : t.Inv) :
    t.wstatus.isRunning = true ↔ ∃ q, t.process = some q ∧ q.done = false := by
  obtain ⟨path, want, upc, downc, ws, cmd, isLog, pc, waiter, calls, now, sigs⟩ := t
  rcases cmd with _ | ⟨_ | ⟨pid, term, done⟩⟩ <;>
  rcases pc with _ | _ | _ | ⟨_, _ | _⟩ | _ | _ | _ | _ | _ | _ <;>
    simp_all [Task.Inv, Task.quiet, Task.fresh, Task.waited, Task.process] <;> aesop

theorem now_step {F : Fmt} {t t1 : Task} {e : Event} (hs : step F t e = some t1) : t.now ≤ t1.now := by
  have hr := step_rel hs
  cases hr with
  | callSend _ i hc | callAck _ i hc | callTimeout _ i hc => simp [(callStep_frame hc).2.2.2.2.2.1]
  | ackTrue t2 cb hpc hc | ackFalse t2 cb hpc hc => simp [(ackCb_frame hc).2.2.2.2.2.1]
  | ackDown t2 cb hpc hc => simp [(sendCb_frame hc).2.2.2.2.2.1]
  | _ => simp [Task.spawnOk, Task.spawnFail, Task.doSignal]

theorem now_run {F : Fmt} {es : List Event} {t t1 : Task} (hr : run F t es = some t1) :
    t.now ≤ t1.now := by
  induction es generalizing t with
  | nil => cases hr; exact Nat.le_refl _
  | cons e es ih =>
    rw [run_cons] at hr
    cases hs : step F t e with
    | none => simp [hs] at hr
    | some t2 =>
      rw [hs] at hr
      exact Nat.le_trans (now_step hs) (ih hr)

/-! ## C9: `isRunning` -/

/-- C9. From `NewTask`, after every sequence of events, `isRunning` is true if and only
if a spawn has succeeded and the waiter has not observed an exit since; equivalently, if and
only if the task holds a process handle for which `Wait` has not returned.  It is false for
a fresh task and in the state that a failed spawn leaves. -/
theorem isRunning_iff_spawned_unobserved (F : Fmt) (path : String) (es : List Event) (t : Task)
    (h : run F (NewTask path) es = some t) :
    (t.wstatus.isRunning = true ↔
      ∃ pre pid post, es = pre ++ Event.spawnOk pid :: post ∧ Event.waitReturn ∉ post) ∧
    (t.wstatus.isRunning = true ↔ ∃ q, t.process = some q ∧ q.done = false) ∧
    (NewTask path).wstatus.isRunning = false ∧
    (∀ pre, es = pre ++ [Event.spawnFail] → t.wstatus.isRunning = false) := by
  have hinv := Inv_run (NewTask_Inv path) h
  refine ⟨?_, isRunning_iff_handle hinv, rfl, ?_⟩
  · rw [isRunning_run (NewTask_Inv path) h, lastSet_true_iff]
    constructor
    · rintro (⟨h1, _⟩ | ⟨pre, e, post, rfl, he, hp⟩)
      · cases h1
      · cases e <;> simp [Event.isSpawnOk] at he
        rename_i pid
        refine ⟨pre, pid, post, rfl, fun hm => ?_⟩
        simpa [Event.isWaitReturn] using hp _ hm
    · rintro ⟨pre, pid, post, rfl, hp⟩
      refine Or.inr ⟨pre, .spawnOk pid, post, rfl, rfl, fun x hx => ?_⟩
      cases x <;> simp [Event.isWaitReturn]
      exact hp hx
  · rintro pre rfl
    rw [run_append] at h
    cases h0 : run F (NewTask path) pre with
    | none => simp [h0] at h
    | some t0 =>
      simp only [h0, Option.some_bind, run, Option.bind_eq_some] at h
      obtain ⟨t1, hs, h1⟩ := h
      cases h1
      have hi := Inv_run (NewTask_Inv path) h0
      have hr := step_rel hs
      cases hr with
      | spawnFail cb hpc =>
        simp only [Task.Inv, hpc, Task.quiet] at hi
        simpa [Task.spawnFail] using hi.2.1.2.1

theorem isRunning_iff_spawned_unobserved_witness :
    run fmt0 (NewTask "sv") upTrace = some upTask ∧
    ((upTask.wstatus.isRunning = true ↔
      ∃ pre pid post, upTrace = pre ++ Event.spawnOk pid :: post ∧ Event.waitReturn ∉ post) ∧
    (upTask.wstatus.isRunning = true ↔ ∃ q, upTask.process = some q ∧ q.done = false) ∧
    (NewTask "sv").wstatus.isRunning = false ∧
    (∀ pre, upTrace = pre ++ [Event.spawnFail] → upTask.wstatus.isRunning = false)) :=
  ⟨by decide, isRunning_iff_spawned_unobserved fmt0 "sv" upTrace upTask (by decide)⟩

/-! ## C10: one process at a time -/

theorem pending_step {F : Fmt} {t t1 : Task} {e : Event} (hs : step F t e = some t1) :
    (if e.isSpawnOk then 1 else 0) + t.pending = (if e.isExitRecv then 1 else 0) + t1.pending := by
  have hr := step_rel hs
  cases hr with
  | callSend _ i hc | callAck _ i hc | callTimeout _ i hc =>
    simp [Task.pending, (callStep_frame hc).1, Event.isSpawnOk, Event.isExitRecv]
  | ackTrue t2 cb hpc hc | ackFalse t2 cb hpc hc =>
    simp [Task.pending, hpc, Event.isSpawnOk, Event.isExitRecv]
  | ackDown t2 cb hpc hc =>
    simp [Task.pending, hpc, Event.isSpawnOk, Event.isExitRecv]
  | _ => simp_all [Task.pending, Event.isSpawnOk, Event.isExitRecv, Task.spawnOk, Task.spawnFail,
      Task.doSignal]

theorem osLive_step {F : Fmt} {t t1 : Task} {e : Event} (h : t.Inv) (hs : step F t e = some t1) :
    (if e.isSpawnOk then 1 else 0) + t.osLive = (if e.isProcExit then 1 else 0) + t1.osLive := by
  have hr := step_rel hs
  cases hr with
  | callSend _ i hc | callAck _ i hc | callTimeout _ i hc =>
    simp [Task.osLive, Task.process, (callStep_frame hc).2.2.2.1, Event.isSpawnOk, Event.isProcExit]
  | ackTrue t2 cb hpc hc | ackFalse t2 cb hpc hc =>
    simp [Task.osLive, Task.process, (ackCb_frame hc).2.2.2.1, Event.isSpawnOk, Event.isProcExit]
  | ackDown t2 cb hpc hc =>
    simp [Task.osLive, Task.process, (sendCb_frame hc).2.2.2.1, Event.isSpawnOk, Event.isProcExit]
  | spawnOk cb pid hpc | spawnFail cb hpc =>
    obtain ⟨path, want, upc, downc, ws, cmd, isLog, pc, waiter, calls, now, sigs⟩ := t
    rcases cmd with _ | ⟨_ | ⟨pid0, _ | term, done⟩⟩ <;>
      simp_all [Task.Inv, Task.quiet, Task.osLive, Task.process, Task.spawnOk, Task.spawnFail,
        Event.isSpawnOk, Event.isProcExit]
  | _ => simp_all [Task.osLive, Task.process, Event.isSpawnOk, Event.isProcExit, Task.doSignal]

theorem pending_run {F : Fmt} {es : List Event} {t t1 : Task} (hr : run F t es = some t1) :
    es.countP Event.isSpawnOk + t.pending = es.countP Event.isExitRecv + t1.pending := by
  induction es generalizing t with
  | nil => cases hr; rfl
  | cons e es ih =>
    rw [run_cons] at hr
    cases hs : step F t e with
    | none => simp [hs] at hr
    | some t2 =>
      rw [hs] at hr
      have h1 := pending_step hs
      have h2 := ih hr
      simp only [List.countP_cons]
      omega

theorem osLive_run {F : Fmt} {es : List Event} {t t1 : Task} (h : t.Inv) (hr : run F t es = some t1) :
    es.countP Event.isSpawnOk + t.osLive = es.countP Event.isProcExit + t1.osLive := by
  induction es generalizing t with
  | nil => cases hr; rfl
  | cons e es ih =>
    rw [run_cons] at hr
    cases hs : step F t e with
    | none => simp [hs] at hr
    | some t2 =>
      rw [hs] at hr
      have h1 := osLive_step h hs
      have h2 := ih (Inv_step h hs) hr
      simp only [List.countP_cons]
      omega

theorem pending_le_one (t : Task) : t.pending ≤ 1 := by
  unfold Task.pending
  split <;> omega

theorem osLive_le_one (t : Task) : t.osLive ≤ 1 := by
  unfold Task.osLive
  split
  · split <;> omega
  · omega

/-- C10. From `NewTask`, after every sequence of events: each successful spawn happens
when the run loop has received the exit of every process it spawned before; the
spawned processes whose exit the run loop has not received are at most one; and the
spawned processes that the operating system has not seen terminate are at most one. -/
theorem one_process_at_a_time (F : Fmt) (path : String) (es : List Event) (t : Task)
    (h : run F (NewTask path) es = some t) :
    (∀ pre pid post, es = pre ++ Event.spawnOk pid :: post →
      pre.countP Event.isSpawnOk = pre.countP Event.isExitRecv) ∧
    es.countP Event.isSpawnOk ≤ es.countP Event.isExitRecv + 1 ∧
    es.countP Event.isSpawnOk ≤ es.countP Event.isProcExit + 1 ∧
    es.countP Event.isProcExit ≤ es.countP Event.isSpawnOk := by
  have hp := pending_run h
  have ho := osLive_run (NewTask_Inv path) h
  have hp1 := pending_le_one t
  have ho1 := osLive_le_one t
  have hp0 : (NewTask path).pending = 0 := rfl
  have ho0 : (NewTask path).osLive = 0 := rfl
  refine ⟨?_, by omega, by omega, by omega⟩
  rintro pre pid post rfl
  rw [run_append] at h
  cases h0 : run F (NewTask path) pre with
  | none => simp [h0] at h
  | some t0 =>
    simp only [h0, Option.some_bind, run_cons, Option.bind_eq_some] at h
    obtain ⟨t1, hs, -⟩ := h
    have hq := pending_run h0
    have hr := step_rel hs
    cases hr with
    | spawnOk cb pid hpc =>
      have : t0.pending = 0 := by simp [Task.pending, hpc]
      omega

theorem one_process_at_a_time_witness :
    run fmt0 (NewTask "sv") upTrace = some upTask ∧
    ((∀ pre pid post, upTrace = pre ++ Event.spawnOk pid :: post →
      pre.countP Event.isSpawnOk = pre.countP Event.isExitRecv) ∧
    upTrace.countP Event.isSpawnOk ≤ upTrace.countP Event.isExitRecv + 1 ∧
    upTrace.countP Event.isSpawnOk ≤ upTrace.countP Event.isProcExit + 1 ∧
    upTrace.countP Event.isProcExit ≤ upTrace.countP Event.isSpawnOk) :=
  ⟨by decide, one_process_at_a_time fmt0 "sv" upTrace upTask (by decide)⟩

/-! ## C1: a clean exit is not restarted -/

theorem stopping_step {F : Fmt} {t t1 : Task} {e : Event} (h : t.stopping)
    (hs : step F t e = some t1) (hne : e ≠ .recvUp) : t1.stopping ∧ e.isSpawn = false := by
  have hr := step_rel hs
  cases hr with
  | callSend _ i hc | callAck _ i hc | callTimeout _ i hc =>
    have f := callStep_frame hc
    simpa [Task.stopping, f.1, f.2.1, f.2.2.2.2.1, Event.isSpawn] using h
  | ackTrue t2 cb hpc hc | ackFalse t2 cb hpc hc =>
    simp [Task.stopping, hpc] at h
  | ackDown t2 cb hpc hc =>
    have f := sendCb_frame hc
    simp only [Task.stopping, hpc] at h
    simp only [Task.stopping, f.2.2.2.2.1, Event.isSpawn]
    simp_all
  | recvUp => exact absurd rfl hne
  | _ => simp_all [Task.stopping, Event.isSpawn, Task.spawnOk, Task.spawnFail, Task.doSignal]

theorem stopping_run {F : Fmt} {es : List Event} {t t1 : Task} (h : t.stopping)
    (hr : run F t es = some t1) (hno : Event.recvUp ∉ es) :
    t1.stopping ∧ ∀ e ∈ es, e.isSpawn = false := by
  induction es generalizing t with
  | nil => cases hr; exact ⟨h, by simp⟩
  | cons e es ih =>
    rw [run_cons] at hr
    cases hs : step F t e with
    | none => simp [hs] at hr
    | some t2 =>
      rw [hs] at hr
      have h1 := stopping_step h hs (fun he => hno (he ▸ List.mem_cons_self _ _))
      have h2 := ih h1.1 hr (fun hm => hno (List.mem_cons_of_mem _ hm))
      refine ⟨h2.1, fun x hx => ?_⟩
      rcases List.mem_cons.1 hx with rfl | hx
      · exact h1.2
      · exact h2.2 x hx

/-- C1. Let the run loop be in its `select` and let the waiter report an exit with a `nil`
error.  When the run loop receives it, its next steps publish the exit, set `want` to `down`
and leave the inner loop for line 116.  And in every continuation in which the run loop
receives no request from the up queue (whichever case of the `select` it takes) there is
no spawn attempt, and `want` is `down` whenever the run loop is at the loop condition or
back at line 116. -/
theorem clean_exit_no_restart (F : Fmt) (t t1 : Task) (es : List Event)
    (hpc : t.pc = .select) (hw : t.waiter = .ready none)
    (hrun : run F t es = some t1) (hno : Event.recvUp ∉ es) :
    run F t [.recvExit, .publish, .check, .cond] =
      some { t with waiter := .absent, want := down, pc := .idle } ∧
    (∀ pid, Event.spawnOk pid ∉ es) ∧ Event.spawnFail ∉ es ∧
    (∀ cb, t1.pc ≠ .spawn cb) ∧
    ((t1.pc = .idle ∨ ∃ cb, t1.pc = .cond cb) → t1.want = down) := by
  have h0 : step F t .recvExit = some { t with waiter := .absent, pc := .publish none } := by
    simp [step, hpc, hw]
  have hst := stopping_run (Or.inl ⟨hpc, hw⟩) hrun hno
  refine ⟨?_, fun pid hm => ?_, fun hm => ?_, fun cb hcb => ?_, fun hcase => ?_⟩
  · rw [run_cons, h0]
    simp [run, step]
  · simpa [Event.isSpawn] using hst.2 _ hm
  · simpa [Event.isSpawn] using hst.2 _ hm
  · have := hst.1
    simp [Task.stopping, hcb] at this
  · have := hst.1
    rcases hcase with hi | ⟨cb, hc⟩
    · simpa [Task.stopping, hi] using this
    · simp only [Task.stopping, hc] at this
      simp at this
      exact this.1

theorem clean_exit_no_restart_witness :
    run fmt0 (NewTask "sv") (upTrace ++ [.procExit ⟨0⟩, .waitReturn]) = some cleanExitTask ∧
    run fmt0 cleanExitTask [.recvExit, .publish, .check, .cond, .tick second]
      = some { cleanExitTask with waiter := .absent, want := down, pc := .idle, now := second } ∧
    (run fmt0 cleanExitTask [.recvExit, .publish, .check, .cond] =
      some { cleanExitTask with waiter := .absent, want := down, pc := .idle } ∧
    (∀ pid, Event.spawnOk pid ∉ [Event.recvExit, .publish, .check, .cond, .tick second]) ∧
    Event.spawnFail ∉ [Event.recvExit, .publish, .check, .cond, .tick second] ∧
    (∀ cb, ({ cleanExitTask with waiter := .absent, want := down, pc := .idle, now := second }
        : Task).pc ≠ .spawn cb) ∧
    ((({ cleanExitTask with waiter := .absent, want := down, pc := .idle, now := second }
        : Task).pc = .idle ∨
      ∃ cb, ({ cleanExitTask with waiter := .absent, want := down, pc := .idle, now := second }
        : Task).pc = .cond cb) →
      ({ cleanExitTask with waiter := .absent, want := down, pc := .idle, now := second }
        : Task).want = down)) :=
  ⟨by decide, by decide,
   clean_exit_no_restart fmt0 cleanExitTask
     { cleanExitTask with waiter := .absent, want := down, pc := .idle, now := second }
     [.recvExit, .publish, .check, .cond, .tick second] rfl rfl (by decide) (by decide)⟩

/-! ## C2: the restart delay -/

theorem timed_step {F : Fmt} {t t1 : Task} {e : Event} (h : t.timed) (hs : step F t e = some t1) :
    t1.timed := by
  have hr := step_rel hs
  cases hr with
  | callSend _ i hc | callAck _ i hc | callTimeout _ i hc =>
    have f := callStep_frame hc
    simpa [Task.timed, f.2.2.1, f.2.2.2.2.2.1] using h
  | ackTrue t2 cb hpc hc | ackFalse t2 cb hpc hc =>
    have f := ackCb_frame hc
    simpa [Task.timed, f.2.2.1, f.2.2.2.2.2.1] using h
  | ackDown t2 cb hpc hc =>
    have f := sendCb_frame hc
    simpa [Task.timed, f.2.2.1, f.2.2.2.2.2.1] using h
  | tick d =>
    simp only [Task.timed] at h ⊢
    exact ⟨by omega, fun x hx => by have := h.2 x hx; omega⟩
  | _ => simp_all [Task.timed, Task.spawnOk, Task.spawnFail, Task.doSignal]

theorem timed_run {F : Fmt} {es : List Event} {t t1 : Task} (h : t.timed) (hr : run F t es = some t1) :
    t1.timed := by
  induction es generalizing t with
  | nil => cases hr; exact h
  | cons e es ih =>
    rw [run_cons] at hr
    cases hs : step F t e with
    | none => simp [hs] at hr
    | some t2 =>
      rw [hs] at hr
      exact ih (timed_step h hs) hr

theorem sleptUntil_step {F : Fmt} {w : Nat} {t t1 : Task} {e : Event} (h : t.sleptUntil w)
    (hs : step F t e = some t1) : t1.sleptUntil w ∧ (e.isSpawn = true → w ≤ t1.now) := by
  have hn := now_step hs
  have hr := step_rel hs
  cases hr with
  | callSend _ i hc | callAck _ i hc | callTimeout _ i hc =>
    have f := callStep_frame hc
    simp only [Task.sleptUntil, f.1, f.2.2.2.2.2.1, Event.isSpawn] at h ⊢
    simpa using h
  | ackTrue t2 cb hpc hc | ackFalse t2 cb hpc hc =>
    have f := ackCb_frame hc
    simp only [Task.sleptUntil, hpc, f.2.2.2.2.2.1, Event.isSpawn] at h hn ⊢
    simp at h ⊢
    omega
  | ackDown t2 cb hpc hc =>
    have f := sendCb_frame hc
    simp only [Task.sleptUntil, hpc, f.2.2.2.2.2.1, Event.isSpawn] at h hn ⊢
    simp at h ⊢
    omega
  | tick d =>
    simp only [Task.sleptUntil, Event.isSpawn] at h ⊢
    rcases h with h | h
    · exact ⟨Or.inl h, by simp⟩
    · exact ⟨Or.inr (by omega), by simp⟩
  | wake wakeAt hpc hle =>
    simp only [Task.sleptUntil, hpc, Event.isSpawn] at h ⊢
    refine ⟨Or.inr ?_, by simp⟩
    rcases h with h | h
    · cases h; exact hle
    · exact h
  | _ =>
    simp_all [Task.sleptUntil, Event.isSpawn, Task.spawnOk, Task.spawnFail, Task.doSignal]

theorem sleptUntil_run {F : Fmt} {w : Nat} {es : List Event} {t t1 : Task} (h : t.sleptUntil w)
    (hr : run F t es = some t1) :
    t1.sleptUntil w ∧ ((∃ e ∈ es, e.isSpawn = true) → w ≤ t1.now) := by
  induction es generalizing t with
  | nil => cases hr; exact ⟨h, by simp⟩
  | cons e es ih =>
    rw [run_cons] at hr
    cases hs : step F t e with
    | none => simp [hs] at hr
    | some t2 =>
      rw [hs] at hr
      have h1 := sleptUntil_step h hs
      have h2 := ih h1.1 hr
      refine ⟨h2.1, ?_⟩
      rintro ⟨x, hx, hsp⟩
      rcases List.mem_cons.1 hx with rfl | hx
      · exact Nat.le_trans (h1.2 hsp) (now_run hr)
      · exact h2.2 ⟨x, hx, hsp⟩

/-- C2, as amended.  In every state reached from `NewTask`:
when the waiter offers an abnormal exit (non-nil error) and the run loop takes it in the
first case of its `select` (line 136), `want` is `up` and the run loop publishes the exit
and comes to the restart decision of lines 139-142;
and at that decision, whenever it is evaluated, `want` is `up` and stays so; if at that
moment less than one second has passed since the spawn, the run loop sleeps `restartWait`,
and every spawn attempt that follows comes at least `restartWait` later; if one second or
more has passed (which is so whenever the recorded exit is one second or more after the
spawn), the next spawn attempt is the run loop's next statement, at the same clock value.
An abnormal exit taken at line 149, after a down request, does not come to this decision. -/
theorem restart_delay_by_time_of_check (F : Fmt) (path : String) (es : List Event) (t : Task)
    (msg : String) (h : run F (NewTask path) es = some t) :
    (t.pc = .select → t.waiter = .ready (some msg) →
      t.want = up ∧
      run F t [.recvExit, .publish] = some { t with waiter := .absent, pc := .check (some msg) } ∧
      step F t .publish = none ∧ step F t .check = none) ∧
    (t.pc = .check (some msg) →
      t.want = up ∧
      (t.now - t.wstatus.started < second →
        step F t .check = some { t with pc := .sleep (t.now + restartWait) } ∧
        ∀ es2 t2, run F { t with pc := .sleep (t.now + restartWait) } es2 = some t2 →
          (∃ e ∈ es2, e.isSpawn = true) → t.now + restartWait ≤ t2.now) ∧
      (second ≤ t.now - t.wstatus.started →
        run F t [.check, .cond] = some { t with pc := .spawn none }) ∧
      (∀ x, t.wstatus.exited = some x → second ≤ x - t.wstatus.started →
        run F t [.check, .cond] = some { t with pc := .spawn none })) ∧
    (∀ cb, t.pc = .awaitExit cb →
      t.want = down ∧ step F t .publish = none ∧ step F t .check = none ∧
      step F t .recvExit = none) := by
  have hinv := Inv_run (NewTask_Inv path) h
  have htm : t.timed := timed_run (by simp [Task.timed, NewTask]) h
  refine ⟨fun hpc hw => ?_, fun hpc => ?_, fun cb hpc => ?_⟩
  · have hwant : t.want = up := by
      simp only [Task.Inv, hpc] at hinv
      exact hinv.2.2
    exact ⟨hwant, by simp [run, step, hpc, hw], by simp [step, hpc], by simp [step, hpc]⟩
  · have hwant : t.want = up := by
      simp only [Task.Inv, hpc] at hinv
      exact hinv.2.2
    have hslow : second ≤ t.now - t.wstatus.started →
        run F t [.check, .cond] = some { t with pc := .spawn none } := by
      intro hle
      have hnd : up ≠ down := by decide
      simp [run, step, hpc, Nat.not_lt.2 hle, hwant, hnd]
    refine ⟨hwant, fun hlt => ⟨by simp [step, hpc, hlt], fun es2 t2 hr hsp => ?_⟩, hslow, ?_⟩
    · exact (sleptUntil_run (w := t.now + restartWait) (Or.inl rfl) hr).2 hsp
    · intro x hx hle
      have := htm.2 x hx
      exact hslow (by omega)
  · have hwant : t.want = down := by
      simp only [Task.Inv, hpc] at hinv
      exact hinv.2.2
    exact ⟨hwant, by simp [step, hpc], by simp [step, hpc], by simp [step, hpc]⟩

theorem restart_delay_by_time_of_check_witness :
    run fmt0 (NewTask "sv") (upTrace ++ [.procExit ⟨1⟩, .waitReturn]) = some crashReadyTask ∧
    run fmt0 (NewTask "sv") (upTrace ++ [.procExit ⟨1⟩, .waitReturn, .recvExit, .publish])
      = some crashedTask ∧
    (crashReadyTask.want = up ∧
      run fmt0 crashReadyTask [.recvExit, .publish]
        = some { crashReadyTask with waiter := .absent, pc := .check (some "exit status 1") } ∧
      step fmt0 crashReadyTask .publish = none ∧ step fmt0 crashReadyTask .check = none) ∧
    (crashedTask.want = up ∧
    (crashedTask.now - crashedTask.wstatus.started < second →
      step fmt0 crashedTask .check
        = some { crashedTask with pc := .sleep (crashedTask.now + restartWait) } ∧
      ∀ es2 t2, run fmt0 { crashedTask with pc := .sleep (crashedTask.now + restartWait) } es2
          = some t2 →
        (∃ e ∈ es2, e.isSpawn = true) → crashedTask.now + restartWait ≤ t2.now) ∧
    (second ≤ crashedTask.now - crashedTask.wstatus.started →
      run fmt0 crashedTask [.check, .cond] = some { crashedTask with pc := .spawn none }) ∧
    (∀ x, crashedTask.wstatus.exited = some x → second ≤ x - crashedTask.wstatus.started →
      run fmt0 crashedTask [.check, .cond] = some { crashedTask with pc := .spawn none })) :=
  ⟨by decide, by decide,
   (restart_delay_by_time_of_check fmt0 "sv" (upTrace ++ [.procExit ⟨1⟩, .waitReturn])
     crashReadyTask "exit status 1" (by decide)).1 rfl rfl,
   (restart_delay_by_time_of_check fmt0 "sv"
     (upTrace ++ [.procExit ⟨1⟩, .waitReturn, .recvExit, .publish])
     crashedTask "exit status 1" (by decide)).2.1 rfl⟩

/-- C2, counterexample.  The process is spawned at time 0 and crashes 0.999999 s later;
the run loop comes to its restart decision one microsecond after that, at 1.0 s; it does
not sleep, and the next process is spawned at 1.0 s, one microsecond after the crash. -/
theorem fast_crash_restarted_without_delay :
    (run fmt0 (NewTask "sv")
        (upTrace ++ [.tick 999999000, .procExit ⟨1⟩, .waitReturn, .tick 1000, .recvExit,
          .publish])).map (fun t => (t.wstatus.started, t.wstatus.exited, t.now, t.pc))
      = some (0, some 999999000, 1000000000, .check (some "exit status 1")) ∧
    (run fmt0 (NewTask "sv")
        (upTrace ++ [.tick 999999000, .procExit ⟨1⟩, .waitReturn, .tick 1000, .recvExit,
          .publish, .check])).map (fun t => (t.now, t.pc, t.want))
      = some (1000000000, .cond none, up) ∧
    (run fmt0 (NewTask "sv")
        (upTrace ++ [.tick 999999000, .procExit ⟨1⟩, .waitReturn, .tick 1000, .recvExit,
          .publish, .check, .cond, .spawnOk 101])).map (fun t => (t.now, t.pc, t.process))
      = some (1000000000, .ackUp none true, some ⟨101, none, false⟩) := by
  decide

/-! ## C5: `signal` -/

theorem signal_fst (t : Task) (sig : Signal) : (t.signal sig).1 = t.process.isSome := by
  obtain ⟨path, want, upc, downc, ws, cmd, isLog, pc, waiter, calls, now, sigs⟩ := t
  rcases cmd with _ | ⟨_ | p⟩ <;> rfl

theorem handle_step {F : Fmt} {t t1 : Task} {e : Event} (hs : step F t e = some t1) :
    t1.process.isSome =
      if e.isSpawnOk then true else if e.isSpawnFail then false else t.process.isSome := by
  have hr := step_rel hs
  cases hr with
  | callSend _ i hc | callAck _ i hc | callTimeout _ i hc =>
    simp [Task.process, (callStep_frame hc).2.2.2.1, Event.isSpawnOk, Event.isSpawnFail]
  | ackTrue t2 cb hpc hc | ackFalse t2 cb hpc hc =>
    simp [Task.process, (ackCb_frame hc).2.2.2.1, Event.isSpawnOk, Event.isSpawnFail]
  | ackDown t2 cb hpc hc =>
    simp [Task.process, (sendCb_frame hc).2.2.2.1, Event.isSpawnOk, Event.isSpawnFail]
  | _ => simp_all [Task.process, Event.isSpawnOk, Event.isSpawnFail, Task.spawnOk, Task.spawnFail,
      Task.doSignal]

theorem handle_run {F : Fmt} {es : List Event} {t t1 : Task} (hr : run F t es = some t1) :
    t1.process.isSome = lastSet Event.isSpawnOk Event.isSpawnFail t.process.isSome es := by
  induction es generalizing t with
  | nil => cases hr; rfl
  | cons e es ih =>
    rw [run_cons] at hr
    cases hs : step F t e with
    | none => simp [hs] at hr
    | some t2 =>
      rw [hs] at hr
      rw [ih hr, handle_step hs]
      rfl

/-- C5, as amended.  From `NewTask`, after every sequence of events, and for every signal:
`signal` reports a process (`true`) if and only if the latest spawn attempt succeeded,
whether or not that process has exited since; otherwise (never spawned, or the latest spawn
attempt failed) it returns `false` and a `nil` error.  With a process handle, the error is
decided by whether `Wait` has returned for it, which is so exactly when `isRunning` is
false: before that, also when the process has already terminated and the waiter has not
observed it yet, the result is `true` with a `nil` error; after that, the result is `true`
with the error of signalling a finished process. -/
theorem signal_reports_handle (F : Fmt) (path : String) (es : List Event) (t : Task) (sig : Signal)
    (h : run F (NewTask path) es = some t) :
    ((t.signal sig).1 = true ↔
      ∃ pre pid post, es = pre ++ Event.spawnOk pid :: post ∧ Event.spawnFail ∉ post) ∧
    ((t.signal sig).1 = false → t.signal sig = (false, none)) ∧
    (t.wstatus.isRunning = true → t.signal sig = (true, none)) ∧
    (∀ p, t.process = some p → p.done = true → t.signal sig = (true, some errProcessDone)) ∧
    (∀ p, t.process = some p → p.done = false → t.signal sig = (true, none)) ∧
    (∀ p, t.process = some p → (p.done = true ↔ t.wstatus.isRunning = false)) ∧
    (∀ p, t.process = some p → t.wstatus.isRunning = false →
      t.signal sig = (true, some errProcessDone)) := by
  have hinv := Inv_run (NewTask_Inv path) h
  have hdone : ∀ p, t.process = some p → (p.done = true ↔ t.wstatus.isRunning = false) := by
    intro p hp
    have hri := isRunning_iff_handle hinv
    constructor
    · intro hd
      cases hr : t.wstatus.isRunning with
      | false => rfl
      | true =>
        obtain ⟨q, hq, hqd⟩ := hri.1 hr
        rw [hp] at hq
        cases hq
        rw [hd] at hqd
        cases hqd
    · intro hr
      cases hd : p.done with
      | true => rfl
      | false =>
        have := hri.2 ⟨p, hp, hd⟩
        rw [hr] at this
        cases this
  have hsig : ∀ p, t.process = some p →
      t.signal sig = (true, if p.done then some errProcessDone else none) := by
    intro p hp
    obtain ⟨path, want, upc, downc, ws, cmd, isLog, pc, waiter, calls, now, sigs⟩ := t
    rcases cmd with _ | ⟨_ | q⟩ <;> simp_all [Task.signal, Task.process, Process.Signal]
  refine ⟨?_, ?_, ?_, ?_, ?_, hdone, ?_⟩
  · rw [signal_fst, handle_run h, lastSet_true_iff]
    constructor
    · rintro (⟨h1, _⟩ | ⟨pre, e, post, rfl, he, hp⟩)
      · cases h1
      · cases e <;> simp [Event.isSpawnOk] at he
        rename_i pid
        refine ⟨pre, pid, post, rfl, fun hm => ?_⟩
        simpa [Event.isSpawnFail] using hp _ hm
    · rintro ⟨pre, pid, post, rfl, hp⟩
      refine Or.inr ⟨pre, .spawnOk pid, post, rfl, rfl, fun x hx => ?_⟩
      cases x <;> simp [Event.isSpawnFail]
      exact hp hx
  · intro hf
    obtain ⟨path, want, upc, downc, ws, cmd, isLog, pc, waiter, calls, now, sigs⟩ := t
    rcases cmd with _ | ⟨_ | p⟩ <;> simp_all [Task.signal]
  · intro hrun
    obtain ⟨q, hq, hd⟩ := (isRunning_iff_handle hinv).1 hrun
    rw [hsig q hq, hd]
    rfl
  · intro p hp hd
    rw [hsig p hp, hd]
    rfl
  · intro p hp hd
    rw [hsig p hp, hd]
    rfl
  · intro p hp hr
    rw [hsig p hp, (hdone p hp).2 hr]
    rfl

theorem signal_reports_handle_witness :
    run fmt0 (NewTask "sv") upTrace = some upTask ∧
    (((upTask.signal .SIGALRM).1 = true ↔
      ∃ pre pid post, upTrace = pre ++ Event.spawnOk pid :: post ∧ Event.spawnFail ∉ post) ∧
    ((upTask.signal .SIGALRM).1 = false → upTask.signal .SIGALRM = (false, none)) ∧
    (upTask.wstatus.isRunning = true → upTask.signal .SIGALRM = (true, none)) ∧
    (∀ p, upTask.process = some p → p.done = true →
      upTask.signal .SIGALRM = (true, some errProcessDone)) ∧
    (∀ p, upTask.process = some p → p.done = false → upTask.signal .SIGALRM = (true, none)) ∧
    (∀ p, upTask.process = some p → (p.done = true ↔ upTask.wstatus.isRunning = false)) ∧
    (∀ p, upTask.process = some p → upTask.wstatus.isRunning = false →
      upTask.signal .SIGALRM = (true, some errProcessDone))) :=
  ⟨by decide, signal_reports_handle fmt0 "sv" upTrace upTask .SIGALRM (by decide)⟩

/-- C5, counterexample.  The service is started, its process exits with status 0, the
waiter records the exit and the run loop returns to line 116: the process has exited
(`isRunning` is false, `Wait` has returned), and `signal` returns `true` and an error. -/
theorem signal_after_exit_reports_process :
    (run fmt0 (NewTask "sv")
        (upTrace ++ [.procExit ⟨0⟩, .waitReturn, .recvExit, .publish, .check, .cond])).map
        (fun t => (t.wstatus.isRunning, t.process, t.pc, t.signal .SIGALRM))
      = some (false, some ⟨100, some ⟨0⟩, true⟩, .idle, (true, some errProcessDone)) := by
  decide

/-- A process that has terminated and that the waiter has not observed yet: `isRunning`
is still true, and `signal` returns `true` and a `nil` error. -/
theorem signal_before_wait_returns :
    (run fmt0 (NewTask "sv") (upTrace ++ [.procExit ⟨0⟩])).map
        (fun t => (t.wstatus.isRunning, t.process, t.signal .SIGALRM))
      = some (true, some ⟨100, some ⟨0⟩, false⟩, (true, none)) := by
  decide

/-! ## The callers of `transition` -/

theorem lookup_set {l : List Call} {j k : Nat} {c c1 : Call} (h : l[j]? = some c) :
    (l.set j c1)[k]? = if j = k then some c1 else l[k]? := by
  rw [List.getElem?_set]
  have := (List.getElem?_eq_some.1 h).1
  simp [this]

theorem lookup_snoc {l : List Call} {k : Nat} {c x : Call} (h : l[k]? = some c) :
    (l ++ [x])[k]? = some c := by
  rw [List.getElem?_append_left (List.getElem?_eq_some.1 h).1]
  exact h

theorem sendCb_cases {t t1 : Task} {i : Nat} {b : Bool} (h : t.sendCb i b = some t1) :
    ∃ c, t.calls[i]? = some c ∧ c.cb = none ∧ t1.calls = t.calls.set i { c with cb := some b } := by
  unfold Task.sendCb at h
  split at h
  · rename_i c hc
    split at h
    · rename_i hcb
      cases h
      exact ⟨c, hc, hcb, rfl⟩
    · cases h
  · cases h

theorem ackCb_cases {t t1 : Task} {cb : Option Nat} {b : Bool} (h : t.ackCb cb b = some t1) :
    t1.calls = t.calls ∨
    ∃ i c, cb = some i ∧ t.calls[i]? = some c ∧ c.cb = none ∧
      t1.calls = t.calls.set i { c with cb := some b } := by
  unfold Task.ackCb at h
  split at h
  · rename_i i
    obtain ⟨c, h1, h2, h3⟩ := sendCb_cases h
    exact Or.inr ⟨i, c, rfl, h1, h2, h3⟩
  · cases h
    exact Or.inl rfl

theorem callStep_cases {F : Fmt} {t t1 : Task} {i : Nat} {e : Event}
    (h : t.callStep F i e = some t1) :
    ∃ c c1, t.calls[i]? = some c ∧ t1.calls = t.calls.set i c1 ∧ c1.w = c.w ∧
      ((c.pc = .send ∧ c1.pc = .wait (t.now + timeout) ∧ c1.cb = c.cb ∧
          ((c.w = up ∧ t.upc = none ∧ t1.upc = some i ∧ t1.downc = t.downc) ∨
           (c.w = down ∧ t.downc = none ∧ t1.downc = some i ∧ t1.upc = t.upc) ∨
           (c.w ≠ up ∧ c.w ≠ down ∧ t1.upc = t.upc ∧ t1.downc = t.downc))) ∨
       (∃ d ok, c.pc = .wait d ∧ c.cb = some ok ∧ c1.cb = none ∧
          c1.pc = .ret (if ok then none else some (t.status F)) ∧
          t1.upc = t.upc ∧ t1.downc = t.downc) ∨
       (∃ d, c.pc = .wait d ∧ d ≤ t.now ∧ c1.cb = c.cb ∧
          c1.pc = .ret (some ("timeout: " ++ t.status F)) ∧
          t1.upc = t.upc ∧ t1.downc = t.downc)) := by
  unfold Task.callStep at h
  split at h
  · cases h
  · rename_i c hc
    split at h
    · rename_i hpc
      split at h
      · rename_i hw
        split at h
        · rename_i hq
          cases h
          exact ⟨c, _, hc, rfl, rfl, Or.inl ⟨hpc, rfl, rfl, Or.inl ⟨hw, hq, rfl, rfl⟩⟩⟩
        · cases h
      · rename_i hw
        split at h
        · rename_i hw2
          split at h
          · rename_i hq
            cases h
            exact ⟨c, _, hc, rfl, rfl, Or.inl ⟨hpc, rfl, rfl, Or.inr (Or.inl ⟨hw2, hq, rfl, rfl⟩)⟩⟩
          · cases h
        · rename_i hw2
          cases h
          exact ⟨c, _, hc, rfl, rfl, Or.inl ⟨hpc, rfl, rfl, Or.inr (Or.inr ⟨hw, hw2, rfl, rfl⟩)⟩⟩
    · rename_i d hpc
      split at h
      · rename_i hcb
        cases h
        exact ⟨c, _, hc, rfl, rfl, Or.inr (Or.inl ⟨d, true, hpc, hcb, rfl, rfl, rfl, rfl⟩)⟩
      · rename_i hcb
        cases h
        exact ⟨c, _, hc, rfl, rfl, Or.inr (Or.inl ⟨d, false, hpc, hcb, rfl, by simp, rfl, rfl⟩)⟩
      · cases h
    · rename_i d hpc
      split at h
      · rename_i hd
        cases h
        exact ⟨c, _, hc, rfl, rfl, Or.inr (Or.inr ⟨d, hpc, hd, rfl, rfl, rfl, rfl⟩)⟩
      · cases h
    · cases h

/-! ## C3: `transition` and a full queue -/

theorem blockedDown_step {F : Fmt} {i k : Nat} {t t1 : Task} {e : Event} (h : t.blockedDown i k)
    (hs : step F t e = some t1) (hne : e.isSpawnOk = false) : t1.blockedDown i k := by
  obtain ⟨hp, hw, hq, hrt⟩ := h
  have hr := step_rel hs
  cases hr with
  | callSend _ j hc | callAck _ j hc | callTimeout _ j hc =>
    have f := callStep_frame hc
    obtain ⟨c, c1, h1, h2, h3, h4⟩ := callStep_cases hc
    have hq1 : t1.downc = some k := by
      rcases h4 with ⟨_, _, _, h5 | h5 | h5⟩ | ⟨_, _, _, _, _, _, _, h5⟩ | ⟨_, _, _, _, _, _, h5⟩
      · rw [h5.2.2.2]; exact hq
      · rw [h5.2.1] at hq; cases hq
      · rw [h5.2.2.2]; exact hq
      · rw [h5]; exact hq
      · rw [h5]; exact hq
    refine ⟨?_, ?_, hq1, by simpa [Task.retrying, f.1] using hrt⟩
    · simp only [Task.callPc, h2, lookup_set h1] at hp ⊢
      by_cases hji : j = i
      · subst hji
        simp only [h1, Option.map_some', Option.some.injEq] at hp
        simp only [Task.callW, h1, Option.map_some', Option.some.injEq] at hw
        rcases h4 with ⟨_, _, _, h5 | h5 | h5⟩ | ⟨_, _, h5, _⟩ | ⟨_, h5, _⟩
        · have hnd : up ≠ down := by decide
          exact absurd (h5.1.symm.trans hw) hnd
        · rw [h5.2.1] at hq; cases hq
        · exact absurd hw h5.2.1
        · rw [hp] at h5; cases h5
        · rw [hp] at h5; cases h5
      · simpa [hji] using hp
    · simp only [Task.callW, h2, lookup_set h1] at hw ⊢
      by_cases hji : j = i
      · subst hji
        simpa [h1, h3] using hw
      · simpa [hji] using hw
  | ackTrue t2 cb hpc hc => simp [Task.retrying, hpc] at hrt
  | ackFalse t2 cb hpc hc =>
    have f := ackCb_frame hc
    refine ⟨?_, ?_, by simpa [f.2.2.2.2.2.2.2.1] using hq, by simp [Task.retrying]⟩
    · rcases ackCb_cases hc with h1 | ⟨j, c, -, h1, -, h2⟩
      · simpa [Task.callPc, h1] using hp
      · simp only [Task.callPc, h2, lookup_set h1] at hp ⊢
        by_cases hji : j = i
        · subst hji
          simpa [h1] using hp
        · simpa [hji] using hp
    · rcases ackCb_cases hc with h1 | ⟨j, c, -, h1, -, h2⟩
      · simpa [Task.callW, h1] using hw
      · simp only [Task.callW, h2, lookup_set h1] at hw ⊢
        by_cases hji : j = i
        · subst hji
          simpa [h1] using hw
        · simpa [hji] using hw
  | ackDown t2 cb hpc hc => simp [Task.retrying, hpc] at hrt
  | call w =>
    obtain ⟨c, hc⟩ : ∃ c, t.calls[i]? = some c := by
      cases hci : t.calls[i]? with
      | none => simp [Task.callPc, hci] at hp
      | some c => exact ⟨c, rfl⟩
    refine ⟨?_, ?_, hq, hrt⟩
    · simpa [Task.callPc, lookup_snoc hc, hc] using hp
    · simpa [Task.callW, lookup_snoc hc, hc] using hw
  | spawnOk cb pid hpc => simp [Event.isSpawnOk] at hne
  | _ =>
    simp_all [Task.blockedDown, Task.retrying, Task.callPc, Task.callW, Task.spawnFail,
      Task.doSignal]

theorem blockedDown_run {F : Fmt} {i k : Nat} {es : List Event} {t t1 : Task} (h : t.blockedDown i k)
    (hr : run F t es = some t1) (hno : ∀ e ∈ es, e.isSpawnOk = false) : t1.blockedDown i k := by
  induction es generalizing t with
  | nil => cases hr; exact h
  | cons e es ih =>
    rw [run_cons] at hr
    cases hs : step F t e with
    | none => simp [hs] at hr
    | some t2 =>
      rw [hs] at hr
      exact ih (blockedDown_step h hs (hno e (List.mem_cons_self _ _))) hr
        (fun x hx => hno x (List.mem_cons_of_mem _ hx))

theorem blockedDown_stuck {F : Fmt} {i k : Nat} {t : Task} (h : t.blockedDown i k) :
    step F t (.callSend i) = none ∧ step F t (.callAck i) = none ∧
    step F t (.callTimeout i) = none := by
  obtain ⟨hp, hw, hq, -⟩ := h
  cases hc : t.calls[i]? with
  | none => simp [Task.callPc, hc] at hp
  | some c =>
    simp only [Task.callPc, hc, Option.map_some', Option.some.injEq] at hp
    simp only [Task.callW, hc, Option.map_some', Option.some.injEq] at hw
    have hnd : down ≠ up := by decide
    simp [step, Task.callStep, hc, hp, hw, hq, hnd]

/-- C3: a `transition(down)` that finds the down queue full does not return.  In every
state in which call `i` of `transition(down)` stands before its send `t.downc <- cb`, the
down queue holds an earlier request, and the run loop is at line 116 or between failed
spawn attempts: whatever happens next, and however much time passes, for as long as no
spawn succeeds the call still stands before its send, and it can neither send, nor be
acknowledged, nor time out. -/
theorem transition_blocks_on_full_queue (F : Fmt) (t t1 : Task) (i j : Nat) (es : List Event)
    (hb : t.blockedDown i j) (h : run F t es = some t1) (hno : ∀ pid, Event.spawnOk pid ∉ es) :
    t1.callPc i = some .send ∧ t1.downc = some j ∧
    step F t1 (.callSend i) = none ∧ step F t1 (.callAck i) = none ∧
    step F t1 (.callTimeout i) = none := by
  have hb1 := blockedDown_run hb h (fun e he => by
    cases e <;> simp [Event.isSpawnOk]
    exact hno _ he)
  exact ⟨hb1.1, hb1.2.2.1, blockedDown_stuck hb1⟩

theorem transition_blocks_on_full_queue_witness :
    run fmt0 (NewTask "sv") (crashLoopTrace ++ twoDownsTrace) = some staleDownTask ∧
    run fmt0 staleDownTask [.tick (100 * second), .wake, .cond, .spawnFail, .ack]
      = some { staleDownTask with pc := .sleep 109000000000, now := 108000000000 } ∧
    (({ staleDownTask with pc := .sleep 109000000000, now := 108000000000 } : Task).callPc 2
      = some .send ∧
    ({ staleDownTask with pc := .sleep 109000000000, now := 108000000000 } : Task).downc = some 1 ∧
    step fmt0 { staleDownTask with pc := .sleep 109000000000, now := 108000000000 } (.callSend 2)
      = none ∧
    step fmt0 { staleDownTask with pc := .sleep 109000000000, now := 108000000000 } (.callAck 2)
      = none ∧
    step fmt0 { staleDownTask with pc := .sleep 109000000000, now := 108000000000 } (.callTimeout 2)
      = none) :=
  ⟨by decide, by decide,
   transition_blocks_on_full_queue fmt0 staleDownTask
     { staleDownTask with pc := .sleep 109000000000, now := 108000000000 } 2 1
     [.tick (100 * second), .wake, .cond, .spawnFail, .ack] ⟨rfl, rfl, rfl, trivial⟩ (by decide)
     (fun pid => by simp)⟩

/-- The part of C3 that holds.  A call of `transition` whose queue is empty sends its
request and enters the `select`, with its timer due `timeout` later; and a call that is in
the `select` can return the error "timeout: " followed by the status as soon as its timer
is due, whatever the run loop does. -/
theorem transition_times_out_after_send (F : Fmt) (t : Task) (i : Nat) (c : Call)
    (hc : t.calls[i]? = some c) :
    (c.pc = .send → c.w = up → t.upc = none →
      step F t (.callSend i) = some { t with
        upc := some i, calls := t.calls.set i { c with pc := .wait (t.now + timeout) } }) ∧
    (c.pc = .send → c.w = down → t.downc = none →
      step F t (.callSend i) = some { t with
        downc := some i, calls := t.calls.set i { c with pc := .wait (t.now + timeout) } }) ∧
    (∀ d, c.pc = .wait d → d ≤ t.now →
      step F t (.callTimeout i) = some { t with
        calls := t.calls.set i { c with pc := .ret (some ("timeout: " ++ t.status F)) } }) := by
  have hnd : down ≠ up := by decide
  refine ⟨fun h1 h2 h3 => ?_, fun h1 h2 h3 => ?_, fun d h1 h2 => ?_⟩
  · simp [step, Task.callStep, hc, h1, h2, h3]
  · simp [step, Task.callStep, hc, h1, h2, h3, hnd]
  · simp [step, Task.callStep, hc, h1, h2]

/-! ## C7: `transition(up)` on a task that is up -/

theorem callStep_other {F : Fmt} {t t1 : Task} {i j : Nat} {e : Event}
    (hc : t.callStep F j e = some t1) (hji : j ≠ i) : t1.calls[i]? = t.calls[i]? := by
  obtain ⟨c, c1, h1, h2, -, -⟩ := callStep_cases hc
  simp [h2, lookup_set h1, hji]

theorem callStep_upc_full {F : Fmt} {t t1 : Task} {i j : Nat} {e : Event}
    (hc : t.callStep F j e = some t1) (hup : t.upc = some i) : t1.upc = some i := by
  obtain ⟨c, c1, -, -, -, h4⟩ := callStep_cases hc
  rcases h4 with ⟨_, _, _, h5 | h5 | h5⟩ | ⟨_, _, _, _, _, _, h5, _⟩ | ⟨_, _, _, _, _, h5, _⟩
  · rw [h5.2.1] at hup; cases hup
  · rw [h5.2.2.2]; exact hup
  · rw [h5.2.2.1]; exact hup
  · rw [h5]; exact hup
  · rw [h5]; exact hup

theorem upWaiting_step {F : Fmt} {i d : Nat} {t t1 : Task} {e : Event} (h : t.upWaiting i d)
    (hs : step F t e = some t1) (hx : e ≠ .recvExit) (hd : e ≠ .recvDown) :
    e.isSpawn = false ∧
    ((e = .callTimeout i ∧ d ≤ t.now ∧ t1.upTimedOut i ("timeout: " ++ t.status F)) ∨
     (e ≠ .callTimeout i ∧ t1.upWaiting i d)) := by
  obtain ⟨hpc, hup, hcb, hst⟩ := h
  have hr := step_rel hs
  cases hr with
  | callSend _ j hc =>
    have f := callStep_frame hc
    have hji : j ≠ i := by
      rintro rfl
      cases h1 : t.calls[j]? with
      | none => simp [Task.callPc, h1] at hst
      | some c =>
        simp only [Task.callPc, h1, Option.map_some', Option.some.injEq] at hst
        simp [Task.callStep, h1, hst] at hc
    have ho := callStep_other hc hji
    exact ⟨rfl, Or.inr ⟨by simp, f.1.trans hpc, callStep_upc_full hc hup,
      by simpa [Task.callCb, ho] using hcb, by simpa [Task.callPc, ho] using hst⟩⟩
  | callAck _ j hc =>
    have f := callStep_frame hc
    have hji : j ≠ i := by
      rintro rfl
      cases h1 : t.calls[j]? with
      | none => simp [Task.callPc, h1] at hst
      | some c =>
        simp only [Task.callPc, h1, Option.map_some', Option.some.injEq] at hst
        simp only [Task.callCb, h1, Option.map_some', Option.some.injEq] at hcb
        simp [Task.callStep, h1, hst, hcb] at hc
    have ho := callStep_other hc hji
    exact ⟨rfl, Or.inr ⟨by simp, f.1.trans hpc, callStep_upc_full hc hup,
      by simpa [Task.callCb, ho] using hcb, by simpa [Task.callPc, ho] using hst⟩⟩
  | callTimeout _ j hc =>
    have f := callStep_frame hc
    by_cases hji : j = i
    · subst hji
      cases h1 : t.calls[j]? with
      | none => simp [Task.callPc, h1] at hst
      | some c =>
        simp only [Task.callPc, h1, Option.map_some', Option.some.injEq] at hst
        have hup1 := callStep_upc_full hc hup
        simp only [Task.callStep, h1, hst] at hc
        by_cases hle : d ≤ t.now
        · simp only [hle, if_true, Option.some.injEq] at hc
          subst hc
          refine ⟨rfl, Or.inl ⟨rfl, hle, hpc, hup, ?_⟩⟩
          simp [Task.callPc, lookup_set h1]
        · simp [hle] at hc
    · have ho := callStep_other hc hji
      have hne : Event.callTimeout j ≠ Event.callTimeout i := by
        intro he; cases he; exact hji rfl
      exact ⟨rfl, Or.inr ⟨hne, f.1.trans hpc, callStep_upc_full hc hup,
        by simpa [Task.callCb, ho] using hcb, by simpa [Task.callPc, ho] using hst⟩⟩
  | call w =>
    obtain ⟨c, hc⟩ : ∃ c, t.calls[i]? = some c := by
      cases hci : t.calls[i]? with
      | none => simp [Task.callCb, hci] at hcb
      | some c => exact ⟨c, rfl⟩
    refine ⟨rfl, Or.inr ⟨by simp, hpc, hup, ?_, ?_⟩⟩
    · simpa [Task.callCb, lookup_snoc hc, hc] using hcb
    · simpa [Task.callPc, lookup_snoc hc, hc] using hst
  | recvExit => exact absurd rfl hx
  | recvDown => exact absurd rfl hd
  | ackTrue t2 cb hpc2 hc | ackFalse t2 cb hpc2 hc => rw [hpc] at hpc2; cases hpc2
  | ackDown t2 cb hpc2 hc => rw [hpc] at hpc2; cases hpc2
  | _ =>
    simp_all [Task.upWaiting, Task.callPc, Task.callCb, Event.isSpawn, Task.doSignal]

theorem upTimedOut_step {F : Fmt} {i : Nat} {msg : String} {t t1 : Task} {e : Event}
    (h : t.upTimedOut i msg) (hs : step F t e = some t1) (hx : e ≠ .recvExit)
    (hd : e ≠ .recvDown) : t1.upTimedOut i msg ∧ e.isSpawn = false := by
  obtain ⟨hpc, hup, hst⟩ := h
  have hr := step_rel hs
  cases hr with
  | callSend _ j hc | callAck _ j hc | callTimeout _ j hc =>
    have f := callStep_frame hc
    obtain ⟨c, c1, h1, h2, h3, h4⟩ := callStep_cases hc
    refine ⟨⟨f.1.trans hpc, ?_, ?_⟩, rfl⟩
    · rcases h4 with ⟨_, _, _, h5 | h5 | h5⟩ | ⟨_, _, _, _, _, _, h5, _⟩ | ⟨_, _, _, _, _, h5, _⟩
      · rw [h5.2.1] at hup; cases hup
      · rw [h5.2.2.2]; exact hup
      · rw [h5.2.2.1]; exact hup
      · rw [h5]; exact hup
      · rw [h5]; exact hup
    · simp only [Task.callPc, h2, lookup_set h1] at hst ⊢
      by_cases hji : j = i
      · subst hji
        simp only [h1, Option.map_some', Option.some.injEq] at hst
        rcases h4 with ⟨h5, _⟩ | ⟨_, _, h5, _⟩ | ⟨_, h5, _⟩ <;>
          (rw [hst] at h5; cases h5)
      · simpa [hji] using hst
  | call w =>
    obtain ⟨c, hc⟩ : ∃ c, t.calls[i]? = some c := by
      cases hci : t.calls[i]? with
      | none => simp [Task.callPc, hci] at hst
      | some c => exact ⟨c, rfl⟩
    refine ⟨⟨hpc, hup, ?_⟩, rfl⟩
    simpa [Task.callPc, lookup_snoc hc, hc] using hst
  | recvExit => exact absurd rfl hx
  | recvDown => exact absurd rfl hd
  | ackTrue t2 cb hpc2 hc | ackFalse t2 cb hpc2 hc => rw [hpc] at hpc2; cases hpc2
  | ackDown t2 cb hpc2 hc => rw [hpc] at hpc2; cases hpc2
  | _ =>
    simp_all [Task.upTimedOut, Task.callPc, Event.isSpawn, Task.doSignal]

theorem upTimedOut_run {F : Fmt} {i : Nat} {msg : String} {es : List Event} {t t1 : Task}
    (h : t.upTimedOut i msg) (hr : run F t es = some t1) (hx : Event.recvExit ∉ es)
    (hd : Event.recvDown ∉ es) : t1.upTimedOut i msg ∧ ∀ e ∈ es, e.isSpawn = false := by
  induction es generalizing t with
  | nil => cases hr; exact ⟨h, by simp⟩
  | cons e es ih =>
    rw [run_cons] at hr
    cases hs : step F t e with
    | none => simp [hs] at hr
    | some t2 =>
      rw [hs] at hr
      have h1 := upTimedOut_step h hs (fun he => hx (he ▸ List.mem_cons_self _ _))
        (fun he => hd (he ▸ List.mem_cons_self _ _))
      have h2 := ih h1.1 hr (fun hm => hx (List.mem_cons_of_mem _ hm))
        (fun hm => hd (List.mem_cons_of_mem _ hm))
      refine ⟨h2.1, fun x hx => ?_⟩
      rcases List.mem_cons.1 hx with rfl | hx
      · exact h1.2
      · exact h2.2 x hx

theorem upWaiting_run {F : Fmt} {i d : Nat} {es : List Event} {t t2 : Task} (h : t.upWaiting i d)
    (hr : run F t es = some t2) (hx : Event.recvExit ∉ es) (hd : Event.recvDown ∉ es) :
    (∀ e ∈ es, e.isSpawn = false) ∧
    (t2.upWaiting i d ∨
      ∃ pre post t3, es = pre ++ Event.callTimeout i :: post ∧ run F t pre = some t3 ∧
        t3.upWaiting i d ∧ d ≤ t3.now ∧ t2.upTimedOut i ("timeout: " ++ t3.status F)) := by
  induction es generalizing t with
  | nil => cases hr; exact ⟨by simp, Or.inl h⟩
  | cons e es ih =>
    rw [run_cons] at hr
    cases hs : step F t e with
    | none => simp [hs] at hr
    | some t1 =>
      rw [hs] at hr
      have hx1 : Event.recvExit ∉ es := fun hm => hx (List.mem_cons_of_mem _ hm)
      have hd1 : Event.recvDown ∉ es := fun hm => hd (List.mem_cons_of_mem _ hm)
      have h1 := upWaiting_step h hs (fun he => hx (he ▸ List.mem_cons_self _ _))
        (fun he => hd (he ▸ List.mem_cons_self _ _))
      rcases h1.2 with ⟨he, hle, hto⟩ | ⟨-, hwt⟩
      · have h2 := upTimedOut_run hto hr hx1 hd1
        refine ⟨fun x hx => ?_, Or.inr ⟨[], es, t, by rw [he]; rfl, rfl, h, hle, h2.1⟩⟩
        rcases List.mem_cons.1 hx with rfl | hx
        · exact h1.1
        · exact h2.2 x hx
      · have h2 := ih hwt hr hx1 hd1
        refine ⟨fun x hx => ?_, ?_⟩
        · rcases List.mem_cons.1 hx with rfl | hx
          · exact h1.1
          · exact h2.1 x hx
        · rcases h2.2 with h3 | ⟨pre, post, t3, h3, h4, h5, h6, h7⟩
          · exact Or.inl h3
          · refine Or.inr ⟨e :: pre, post, t3, by rw [h3]; rfl, ?_, h5, h6, h7⟩
            rw [run_cons, hs]
            exact h4

theorem upWaiting_ready {F : Fmt} {i d : Nat} {t : Task} (h : t.upWaiting i d) :
    step F t (.callAck i) = none ∧
    (t.now < d → step F t (.callTimeout i) = none) ∧
    (d ≤ t.now → ∃ c, t.calls[i]? = some c ∧
      step F t (.callTimeout i) = some { t with
        calls := t.calls.set i { c with pc := .ret (some ("timeout: " ++ t.status F)) } }) := by
  obtain ⟨-, -, hcb, hst⟩ := h
  cases hc : t.calls[i]? with
  | none => simp [Task.callPc, hc] at hst
  | some c =>
    simp only [Task.callPc, hc, Option.map_some', Option.some.injEq] at hst
    simp only [Task.callCb, hc, Option.map_some', Option.some.injEq] at hcb
    refine ⟨by simp [step, Task.callStep, hc, hst, hcb], fun hlt => ?_, fun hle => ⟨c, rfl, ?_⟩⟩
    · simp [step, Task.callStep, hc, hst, Nat.not_le.2 hlt]
    · simp [step, Task.callStep, hc, hst, hle]

/-- C7, as amended.  Let the run loop be in its `select` (the task is up and its process
is supervised) and let the up queue be empty.  A call of `transition(up)` puts its request
in the up queue.  For as long as the run loop does not leave its `select` (it receives
neither the exit of the process nor a down request), no spawn is attempted, the request
stays in the queue, and the call is never answered with success.  While the call waits it
cannot be acknowledged; it cannot time out before `timeout` has passed since its send; from
then on its timeout case is ready, and taking it returns the error "timeout: " followed by
the status of the task at that moment.  And if the call has returned, it returned exactly
that error, at a moment `timeout` or more after its send. -/
theorem transition_up_on_running_task (F : Fmt) (t t2 : Task) (i : Nat) (c : Call)
    (es : List Event) (hpc : t.pc = .select) (hc : t.calls[i]? = some c) (hsend : c.pc = .send)
    (hw : c.w = up) (hcb : c.cb = none) (hup : t.upc = none)
    (h : run F t (.callSend i :: es) = some t2)
    (hx : Event.recvExit ∉ es) (hd : Event.recvDown ∉ es) :
    (∀ e ∈ es, e.isSpawn = false) ∧ t2.pc = .select ∧ t2.upc = some i ∧
    ((t2.callPc i = some (.wait (t.now + timeout)) ∧
        step F t2 (.callAck i) = none ∧
        (t2.now < t.now + timeout → step F t2 (.callTimeout i) = none) ∧
        (t.now + timeout ≤ t2.now → ∃ c2, t2.calls[i]? = some c2 ∧
          step F t2 (.callTimeout i) = some { t2 with
            calls := t2.calls.set i { c2 with pc := .ret (some ("timeout: " ++ t2.status F)) } })) ∨
      ∃ pre post t3, es = pre ++ Event.callTimeout i :: post ∧
        run F t (.callSend i :: pre) = some t3 ∧
        t3.callPc i = some (.wait (t.now + timeout)) ∧ t.now + timeout ≤ t3.now ∧
        t3.now ≤ t2.now ∧
        t2.callPc i = some (.ret (some ("timeout: " ++ t3.status F)))) := by
  have h0 : step F t (.callSend i) = some { t with
      upc := some i, calls := t.calls.set i { c with pc := .wait (t.now + timeout) } } := by
    simp [step, Task.callStep, hc, hsend, hw, hup]
  rw [run_cons, h0, Option.some_bind] at h
  have hq : Task.upWaiting i (t.now + timeout) { t with
      upc := some i, calls := t.calls.set i { c with pc := .wait (t.now + timeout) } } := by
    refine ⟨hpc, rfl, ?_, ?_⟩
    · simp [Task.callCb, lookup_set hc, hcb]
    · simp [Task.callPc, lookup_set hc]
  have h1 := upWaiting_run hq h hx hd
  rcases h1.2 with h2 | ⟨pre, post, t3, h3, h4, h5, h6, h7⟩
  · exact ⟨h1.1, h2.1, h2.2.1, Or.inl ⟨h2.2.2.2, upWaiting_ready h2⟩⟩
  · refine ⟨h1.1, h7.1, h7.2.1, Or.inr ⟨pre, post, t3, h3, ?_, h5.2.2.2, h6, ?_, h7.2.2⟩⟩
    · rw [run_cons, h0, Option.some_bind]
      exact h4
    · rw [h3, run_append, h4, Option.some_bind] at h
      exact Nat.le_trans (Nat.le_refl _) (now_run h)

theorem transition_up_on_running_task_witness :
    run fmt0 (NewTask "sv") (upTrace ++ [.call up]) = some upAgainTask ∧
    run fmt0 upAgainTask [.callSend 1, .tick timeout] = some upDueTask ∧
    run fmt0 upAgainTask [.callSend 1, .tick timeout, .callTimeout 1] = some upTimedOutTask ∧
    ((∀ e ∈ [Event.tick timeout, .callTimeout 1], e.isSpawn = false) ∧
    upTimedOutTask.pc = .select ∧ upTimedOutTask.upc = some 1 ∧
    ((upTimedOutTask.callPc 1 = some (.wait (upAgainTask.now + timeout)) ∧
        step fmt0 upTimedOutTask (.callAck 1) = none ∧
        (upTimedOutTask.now < upAgainTask.now + timeout →
          step fmt0 upTimedOutTask (.callTimeout 1) = none) ∧
        (upAgainTask.now + timeout ≤ upTimedOutTask.now →
          ∃ c2, upTimedOutTask.calls[1]? = some c2 ∧
          step fmt0 upTimedOutTask (.callTimeout 1) = some { upTimedOutTask with
            calls := upTimedOutTask.calls.set 1
              { c2 with pc := .ret (some ("timeout: " ++ upTimedOutTask.status fmt0)) } })) ∨
      ∃ pre post t3, [Event.tick timeout, .callTimeout 1] = pre ++ Event.callTimeout 1 :: post ∧
        run fmt0 upAgainTask (.callSend 1 :: pre) = some t3 ∧
        t3.callPc 1 = some (.wait (upAgainTask.now + timeout)) ∧
        upAgainTask.now + timeout ≤ t3.now ∧ t3.now ≤ upTimedOutTask.now ∧
        upTimedOutTask.callPc 1 = some (.ret (some ("timeout: " ++ t3.status fmt0))))) :=
  ⟨by decide, by decide, by decide,
   transition_up_on_running_task fmt0 upAgainTask upTimedOutTask 1 ⟨up, none, .send⟩
     [.tick timeout, .callTimeout 1] rfl rfl rfl rfl rfl rfl (by decide) (by decide) (by decide)⟩

/-- C7, counterexample.  The service is up (process 100, no pending down request) and
`transition(up)` is called at time 0.  The call does not return at once: it can be neither
acknowledged nor timed out at time 0, and waits until 7 s, when it returns the timeout
error.  Its request stays in the up queue: when process 100 later exits cleanly and the
run loop returns to line 116, the run loop takes the request and spawns process 101. -/
theorem transition_up_times_out_and_respawns :
    (run fmt0 (NewTask "sv") (upTrace ++ [.call up, .callSend 1])).map
        (fun t => (t.want, t.wstatus.isRunning, t.downc, t.callPc 1, t.upc, t.now))
      = some (up, true, none, some (.wait 7000000000), some 1, 0) ∧
    run fmt0 (NewTask "sv") (upTrace ++ [.call up, .callSend 1, .callAck 1]) = none ∧
    run fmt0 (NewTask "sv") (upTrace ++ [.call up, .callSend 1, .callTimeout 1]) = none ∧
    (run fmt0 (NewTask "sv") (upTrace ++ [.call up, .callSend 1, .tick timeout, .callTimeout 1])).map
        (fun t => (t.callPc 1, t.process))
      = some (some (.ret (some "timeout: sv: up (pid 100) 7000000000ns")),
          some ⟨100, none, false⟩) ∧
    (run fmt0 (NewTask "sv")
        (upTrace ++ [.call up, .callSend 1, .tick timeout, .callTimeout 1, .procExit ⟨0⟩,
          .waitReturn, .recvExit, .publish, .check, .cond, .recvUp, .cond, .spawnOk 101])).map
        (fun t => (t.want, t.wstatus.isRunning, t.process))
      = some (up, true, some ⟨101, none, false⟩) :=
  ⟨by rfl, by decide, by decide, by decide, by decide⟩

/-! ## C6: the command dispatcher -/

/-- C6. When `control` receives `up` or `down`: if `want` of the service task equals the
command, it responds with the status of the service task and nothing else changes (no
`transition` is called; queues, `want` and process of the task are as before); otherwise
it calls `transition(cmd)` on the service task, and when that call returns it responds
with the text of the error, or with the status if the error is `nil`. -/
theorem control_up_down (F : Fmt) (s : System) (cmd : String) (hcmd : cmd = up ∨ cmd = down)
    (hctl : s.ctl = .recv) (hlive : s.main.ended = false) :
    (s.inTask.want = cmd →
      sysStep F s (.ctlCmd cmd) = some { s with ctl := .respond (s.inTask.status F) }) ∧
    (s.inTask.want ≠ cmd →
      sysStep F s (.ctlCmd cmd) = some { s with
        inTask := { s.inTask with calls := s.inTask.calls ++ [⟨cmd, none, .send⟩] }
        ctl := .inCall s.inTask.calls.length }) ∧
    (∀ (s1 : System) (i : Nat), s1.ctl = .inCall i → s1.main.ended = false →
      (∀ msg, s1.inTask.callPc i = some (.ret (some msg)) →
        sysStep F s1 .ctlReturn = some { s1 with ctl := .respond msg }) ∧
      (s1.inTask.callPc i = some (.ret none) →
        sysStep F s1 .ctlReturn = some { s1 with ctl := .respond (s1.inTask.status F) }) ∧
      ((∀ r, s1.inTask.callPc i ≠ some (.ret r)) → sysStep F s1 .ctlReturn = none)) ∧
    (∀ (s1 : System) (r : String), s1.ctl = .respond r → s1.main.ended = false →
      sysStep F s1 .ctlRespond = some { s1 with resp := s1.resp ++ [r], ctl := .recv }) := by
  refine ⟨fun hw => ?_, fun hw => ?_, fun s1 i h1 h2 => ⟨fun msg hm => ?_, fun hm => ?_, fun hm => ?_⟩,
    fun s1 r h1 h2 => ?_⟩
  · simp [sysStep, hlive, hctl, controlCmd, hcmd, hw]
  · simp [sysStep, hlive, hctl, controlCmd, hcmd, hw, step]
  · simp [sysStep, h1, h2, hm]
  · simp [sysStep, h1, h2, hm]
  · simp only [sysStep, h1, h2]
    cases hc : s1.inTask.callPc i with
    | none => simp
    | some pc =>
      cases pc with
      | ret r => exact absurd hc (hm r)
      | _ => simp
  · simp [sysStep, h1, h2]

theorem control_up_down_witness :
    sysRun fmt0 (initSystem "sv" "lg" true) startTrace = some startedSystem ∧
    sysStep fmt0 startedSystem (.ctlCmd up)
      = some { startedSystem with ctl := .respond (startedSystem.inTask.status fmt0) } ∧
    sysStep fmt0 startedSystem (.ctlCmd down)
      = some { startedSystem with
          inTask := { startedSystem.inTask with
            calls := startedSystem.inTask.calls ++ [⟨down, none, .send⟩] }
          ctl := .inCall startedSystem.inTask.calls.length } :=
  ⟨by decide,
   (control_up_down fmt0 startedSystem up (Or.inl rfl) rfl rfl).1 rfl,
   (control_up_down fmt0 startedSystem down (Or.inr rfl) rfl rfl).2.1 (by decide)⟩

/-! ## C8: the shutdown -/

theorem shutdown_blocked_step {F : Fmt} {i j : Nat} {s s1 : System} {e : SysEvent}
    (hm : s.main = .downServiceWait i) (hb : s.inTask.blockedDown i j)
    (hs : sysStep F s e = some s1) (hne : ∀ pid, e ≠ .service (.spawnOk pid)) :
    s1.main = .downServiceWait i ∧ s1.inTask.blockedDown i j := by
  have hend : s.main.ended = false := by rw [hm]; rfl
  simp only [sysStep, hend] at hs
  cases e with
  | tick d =>
    simp only [Bool.false_eq_true, if_false, Option.bind_eq_some, Option.map_eq_some'] at hs
    obtain ⟨t, ht, o, -, rfl⟩ := hs
    exact ⟨hm, blockedDown_step hb ht rfl⟩
  | service te =>
    simp only [Bool.false_eq_true, if_false] at hs
    split at hs
    · simp only [Option.map_eq_some'] at hs
      obtain ⟨t, ht, rfl⟩ := hs
      refine ⟨hm, blockedDown_step hb ht ?_⟩
      cases te <;> simp [Event.isSpawnOk]
      exact hne _ rfl
    · split at hs
      · rename_i hp
        simp only [Option.bind_eq_some] at hs
        obtain ⟨t, ht, hx⟩ := hs
        have hb1 := blockedDown_step hb ht rfl
        unfold exitsService at hx
        split at hx
        · simp only [Option.map_eq_some'] at hx
          obtain ⟨o, -, rfl⟩ := hx
          exact ⟨hm, hb1⟩
        · cases hx
          exact ⟨hm, hb1⟩
      · cases hs
  | logger te =>
    simp only [Bool.false_eq_true, if_false] at hs
    split at hs
    · simp only [Option.map_eq_some'] at hs
      obtain ⟨t, -, rfl⟩ := hs
      exact ⟨hm, hb⟩
    · split at hs
      · simp only [Option.map_eq_some'] at hs
        obtain ⟨t, -, rfl⟩ := hs
        exact ⟨hm, hb⟩
      · cases hs
  | main =>
    simp [mainStep, hm, hb.1] at hs
  | osSignal =>
    simp only [Bool.false_eq_true, if_false, hm] at hs
    cases hs
    exact ⟨rfl, hb⟩
  | ctlCmd cmd =>
    simp only [Bool.false_eq_true, if_false] at hs
    split at hs
    · unfold controlCmd at hs
      split at hs
      · split at hs
        · cases hs; exact ⟨hm, hb⟩
        · simp only [Option.map_eq_some'] at hs
          obtain ⟨t, ht, rfl⟩ := hs
          exact ⟨hm, blockedDown_step hb ht rfl⟩
      · split at hs
        · cases hs; exact ⟨hm, hb⟩
        · split at hs <;> cases hs <;> exact ⟨hm, hb⟩
    · cases hs
  | ctlReturn =>
    simp only [Bool.false_eq_true, if_false] at hs
    split at hs
    · split at hs <;> cases hs <;> exact ⟨hm, hb⟩
    · cases hs
  | ctlRespond =>
    simp only [Bool.false_eq_true, if_false] at hs
    split at hs
    · cases hs; exact ⟨hm, hb⟩
    · cases hs
  | ctlExit =>
    simp only [Bool.false_eq_true, if_false] at hs
    split at hs
    · split at hs
      · cases hs
      · cases hs; exact ⟨hm, hb⟩
    · cases hs

/-- C8: the shutdown does not complete when the down queue of the service task is full.
In every state of the supervisor in which `main` is inside `inTask.transition(down)`
(line 159, first iteration), that call stands before its send, the down queue of the
service task holds an earlier request, and the service run loop is between failed spawn
attempts: whatever happens next, and however much time passes, for as long as the service
does not start, `main` is still inside that call and has no next statement; it sends no
SIGKILL, never asks the logger to go down and never returns. -/
theorem shutdown_blocks_on_full_queue (F : Fmt) (s s1 : System) (i j : Nat) (es : List SysEvent)
    (hm : s.main = .downServiceWait i) (hb : s.inTask.blockedDown i j)
    (h : sysRun F s es = some s1) (hno : ∀ pid, SysEvent.service (.spawnOk pid) ∉ es) :
    s1.main = .downServiceWait i ∧ s1.inTask.callPc i = some .send ∧
    sysStep F s1 .main = none ∧ sysStep F s1 (.service (.callSend i)) = none ∧
    sysStep F s1 (.service (.callTimeout i)) = none := by
  have key : s1.main = .downServiceWait i ∧ s1.inTask.blockedDown i j := by
    induction es generalizing s with
    | nil => cases h; exact ⟨hm, hb⟩
    | cons e es ih =>
      simp only [sysRun, Option.bind_eq_some] at h
      obtain ⟨s2, h2, h3⟩ := h
      have h4 := shutdown_blocked_step hm hb h2
        (fun pid he => hno pid (he ▸ List.mem_cons_self _ _))
      exact ih s2 h4.1 h4.2 h3 (fun pid hx => hno pid (List.mem_cons_of_mem _ hx))
  have hst := blockedDown_stuck (F := F) key.2
  refine ⟨key.1, key.2.1, ?_, ?_, ?_⟩
  · simp [sysStep, key.1, MainPc.ended, mainStep, key.2.1]
  · simp [sysStep, key.1, MainPc.ended, Event.isInternal, hst.1]
  · simp [sysStep, key.1, MainPc.ended, Event.isInternal, hst.2.2]

theorem shutdown_blocks_on_full_queue_witness :
    sysRun fmt0 (initSystem "sv" "lg" true) (startTrace ++ hangTrace) = some hangSystem ∧
    sysRun fmt0 hangSystem
        [.tick (100 * second), .service .wake, .service .cond, .service .spawnFail, .service .ack]
      = some { hangSystem with
          inTask := { staleDownTask with pc := .sleep 109000000000, now := 108000000000 }
          outTask := { hangSystem.outTask with now := 108000000000 } } ∧
    (({ hangSystem with
          inTask := { staleDownTask with pc := .sleep 109000000000, now := 108000000000 }
          outTask := { hangSystem.outTask with now := 108000000000 } } : System).main
        = .downServiceWait 2 ∧
    ({ hangSystem with
          inTask := { staleDownTask with pc := .sleep 109000000000, now := 108000000000 }
          outTask := { hangSystem.outTask with now := 108000000000 } } : System).inTask.callPc 2
        = some .send ∧
    sysStep fmt0 { hangSystem with
          inTask := { staleDownTask with pc := .sleep 109000000000, now := 108000000000 }
          outTask := { hangSystem.outTask with now := 108000000000 } } .main = none ∧
    sysStep fmt0 { hangSystem with
          inTask := { staleDownTask with pc := .sleep 109000000000, now := 108000000000 }
          outTask := { hangSystem.outTask with now := 108000000000 } } (.service (.callSend 2))
        = none ∧
    sysStep fmt0 { hangSystem with
          inTask := { staleDownTask with pc := .sleep 109000000000, now := 108000000000 }
          outTask := { hangSystem.outTask with now := 108000000000 } } (.service (.callTimeout 2))
        = none) :=
  ⟨by decide, by decide,
   shutdown_blocks_on_full_queue fmt0 hangSystem _ 2 1
     [.tick (100 * second), .service .wake, .service .cond, .service .spawnFail, .service .ack]
     rfl ⟨rfl, rfl, rfl, trivial⟩ (by decide) (fun pid => by simp)⟩

/-- The parts of C8 that hold.  On the shutdown trigger `main` calls `transition(down)`
on the service task first; it calls it on the logger task only when the call on the
service task has returned; and for each task it calls `signal(SIGKILL)` on that task if
the call returned an error, and does not if it returned `nil`. -/
theorem shutdown_order_and_kill (F : Fmt) (s : System) (i : Nat) :
    (s.main = .waitSig → s.exitc = true →
      sysStep F s .main = some { s with exitc := false, main := .downService }) ∧
    (s.main = .downService →
      sysStep F s .main = some { s with
        inTask := { s.inTask with calls := s.inTask.calls ++ [⟨down, none, .send⟩] }
        main := .downServiceWait s.inTask.calls.length }) ∧
    (s.main = .downServiceWait i → s.inTask.callPc i = some (.ret none) →
      sysStep F s .main = some { s with main := .downLogger }) ∧
    (∀ msg, s.main = .downServiceWait i → s.inTask.callPc i = some (.ret (some msg)) →
      sysStep F s .main = some { s with
        inTask := s.inTask.doSignal .SIGKILL, main := .downLogger }) ∧
    (s.main = .downServiceWait i → (∀ r, s.inTask.callPc i ≠ some (.ret r)) →
      sysStep F s .main = none) ∧
    (s.main = .downLogger →
      sysStep F s .main = some { s with
        outTask := { s.outTask with calls := s.outTask.calls ++ [⟨down, none, .send⟩] }
        main := .downLoggerWait s.outTask.calls.length }) ∧
    (s.main = .downLoggerWait i → s.outTask.callPc i = some (.ret none) →
      sysStep F s .main = some { s with main := .finished }) ∧
    (∀ msg, s.main = .downLoggerWait i → s.outTask.callPc i = some (.ret (some msg)) →
      sysStep F s .main = some { s with
        outTask := s.outTask.doSignal .SIGKILL, main := .finished }) := by
  refine ⟨fun h1 h2 => ?_, fun h1 => ?_, fun h1 h2 => ?_, fun msg h1 h2 => ?_, fun h1 h2 => ?_,
    fun h1 => ?_, fun h1 h2 => ?_, fun msg h1 h2 => ?_⟩
  · simp [sysStep, mainStep, h1, h2, MainPc.ended]
  · simp [sysStep, mainStep, h1, MainPc.ended, step]
  · simp [sysStep, mainStep, h1, h2, MainPc.ended]
  · simp [sysStep, mainStep, h1, h2, MainPc.ended, step]
  · simp only [sysStep, mainStep, h1, MainPc.ended]
    cases hc : s.inTask.callPc i with
    | none => simp
    | some pc =>
      cases pc with
      | ret r => exact absurd hc (h2 r)
      | _ => simp
  · simp [sysStep, mainStep, h1, MainPc.ended, step]
  · simp [sysStep, mainStep, h1, h2, MainPc.ended]
  · simp [sysStep, mainStep, h1, h2, MainPc.ended, step]

/-! ## C4: alarm forwarding -/

theorem publishing_step {F : Fmt} {t t1 : Task} {e : Event} (hs : step F t e = some t1) :
    (if e.isRecvExit then 1 else 0) + t.publishing = (if e.isPublish then 1 else 0) + t1.publishing := by
  have hr := step_rel hs
  cases hr with
  | callSend _ i hc | callAck _ i hc | callTimeout _ i hc =>
    simp [Task.publishing, (callStep_frame hc).1, Event.isRecvExit, Event.isPublish]
  | ackTrue t2 cb hpc hc | ackFalse t2 cb hpc hc =>
    simp [Task.publishing, hpc, Event.isRecvExit, Event.isPublish]
  | ackDown t2 cb hpc hc =>
    simp [Task.publishing, hpc, Event.isRecvExit, Event.isPublish]
  | _ => simp_all [Task.publishing, Event.isRecvExit, Event.isPublish, Task.spawnOk, Task.spawnFail,
      Task.doSignal]

/-- The exits that a run loop sends on `t.exitc` are those that it takes in the first
case of its `select`, one for one: from `NewTask`, after every sequence of events, the
exits taken there are the exits published plus the one being published, if any.  An exit
taken at line 149, after a down request, is not among them. -/
theorem published_exits_are_select_exits (F : Fmt) (path : String) (es : List Event) (t : Task)
    (h : run F (NewTask path) es = some t) :
    es.countP Event.isRecvExit = es.countP Event.isPublish + t.publishing := by
  have key : ∀ (es : List Event) (t0 : Task), run F t0 es = some t →
      es.countP Event.isRecvExit + t0.publishing = es.countP Event.isPublish + t.publishing := by
    intro es
    induction es with
    | nil => intro t0 h0; cases h0; rfl
    | cons e es ih =>
      intro t0 h0
      rw [run_cons] at h0
      cases hs : step F t0 e with
      | none => simp [hs] at h0
      | some t2 =>
        rw [hs] at h0
        have h1 := publishing_step hs
        have h2 := ih t2 h0
        simp only [List.countP_cons]
        omega
  have := key es _ h
  simpa [Task.publishing, NewTask] using this

/-- The parts of C4 that hold.  When the service run loop sends an exit on `exitc`
(line 137) and `exits` runs, the step makes exactly one call of `signal(SIGALRM)` on the
logger task if alarm forwarding is enabled, and none if it is disabled; an exit published
by the logger task leads to no call of `signal`. -/
theorem exits_alarm_per_published_exit (F : Fmt) (s : System) (err : Err)
    (hlive : s.main.ended = false) (hon : s.exitsOn = true) :
    (s.inTask.pc = .publish err →
      sysStep F s (.service .publish) = some { s with
        inTask := { s.inTask with pc := .check err }
        outTask := if s.alarm then s.outTask.doSignal .SIGALRM else s.outTask }) ∧
    (s.outTask.pc = .publish err →
      sysStep F s (.logger .publish) = some { s with
        outTask := { s.outTask with pc := .check err } }) := by
  constructor
  · intro hpc
    cases ha : s.alarm <;>
      simp [sysStep, hlive, hon, Event.isInternal, step, hpc, exitsService, ha]
  · intro hpc
    simp [sysStep, hlive, hon, Event.isInternal, step, hpc]

/-- C4: the exit of the service process that a down request causes is not published.
With alarm forwarding enabled, the supervisor is started and the command `down` is
given: the run loop sends SIGTERM, process 100 dies, the waiter records the exit, the run
loop acknowledges and returns to line 116.  The service process has exited and no call of
`signal` has been made on the logger task: there is no SIGALRM.  The same start followed
by a crash of the service process does give one SIGALRM. -/
theorem down_exit_gives_no_alarm :
    (sysRun fmt0 (initSystem "sv" "lg" true) (startTrace ++ downTrace)).map
        (fun s => (s.alarm, s.inTask.process, s.inTask.wstatus.isRunning, s.inTask.pc,
          s.inTask.sigs, s.outTask.sigs))
      = some (true, some ⟨100, some ⟨143⟩, true⟩, false, .idle, [⟨.SIGTERM, true, none⟩], []) ∧
    (sysRun fmt0 (initSystem "sv" "lg" true)
        (startTrace ++ [.service (.procExit ⟨1⟩), .service .waitReturn, .service .recvExit,
          .service .publish])).map (fun s => s.outTask.sigs)
      = some [⟨.SIGALRM, true, none⟩] :=
  ⟨by rfl, by decide⟩

/-! ## The tasks of the supervisor -/

theorem sysStep_tasks {F : Fmt} {s s1 : System} {e : SysEvent} (hs : sysStep F s e = some s1) :
    (s1.inTask = s.inTask ∨ ∃ te, step F s.inTask te = some s1.inTask) ∧
    (s1.outTask = s.outTask ∨ ∃ te, step F s.outTask te = some s1.outTask) := by
  unfold sysStep at hs
  split at hs
  · cases hs
  cases e with
  | tick d =>
    simp only [Option.bind_eq_some, Option.map_eq_some'] at hs
    obtain ⟨t, ht, o, ho, rfl⟩ := hs
    exact ⟨Or.inr ⟨_, ht⟩, Or.inr ⟨_, ho⟩⟩
  | service te =>
    simp only at hs
    split at hs
    · simp only [Option.map_eq_some'] at hs
      obtain ⟨t, ht, rfl⟩ := hs
      exact ⟨Or.inr ⟨_, ht⟩, Or.inl rfl⟩
    · split at hs
      · simp only [Option.bind_eq_some] at hs
        obtain ⟨t, ht, hx⟩ := hs
        unfold exitsService at hx
        split at hx
        · simp only [Option.map_eq_some'] at hx
          obtain ⟨o, ho, rfl⟩ := hx
          exact ⟨Or.inr ⟨_, ht⟩, Or.inr ⟨_, ho⟩⟩
        · cases hx
          exact ⟨Or.inr ⟨_, ht⟩, Or.inl rfl⟩
      · cases hs
  | logger te =>
    simp only at hs
    split at hs
    · simp only [Option.map_eq_some'] at hs
      obtain ⟨t, ht, rfl⟩ := hs
      exact ⟨Or.inl rfl, Or.inr ⟨_, ht⟩⟩
    · split at hs
      · simp only [Option.map_eq_some'] at hs
        obtain ⟨t, ht, rfl⟩ := hs
        exact ⟨Or.inl rfl, Or.inr ⟨_, ht⟩⟩
      · cases hs
  | main =>
    simp only [mainStep] at hs
    split at hs
    · simp only [Option.map_eq_some'] at hs
      obtain ⟨t, ht, rfl⟩ := hs
      exact ⟨Or.inl rfl, Or.inr ⟨_, ht⟩⟩
    · split at hs <;> cases hs <;> exact ⟨Or.inl rfl, Or.inl rfl⟩
    · simp only [Option.map_eq_some'] at hs
      obtain ⟨t, ht, rfl⟩ := hs
      exact ⟨Or.inr ⟨_, ht⟩, Or.inl rfl⟩
    · split at hs <;> cases hs <;> exact ⟨Or.inl rfl, Or.inl rfl⟩
    · split at hs <;> cases hs
      exact ⟨Or.inl rfl, Or.inl rfl⟩
    · simp only [Option.map_eq_some'] at hs
      obtain ⟨t, ht, rfl⟩ := hs
      exact ⟨Or.inr ⟨_, ht⟩, Or.inl rfl⟩
    · split at hs
      · cases hs; exact ⟨Or.inl rfl, Or.inl rfl⟩
      · simp only [Option.map_eq_some'] at hs
        obtain ⟨t, ht, rfl⟩ := hs
        exact ⟨Or.inr ⟨_, ht⟩, Or.inl rfl⟩
      · cases hs
    · simp only [Option.map_eq_some'] at hs
      obtain ⟨t, ht, rfl⟩ := hs
      exact ⟨Or.inl rfl, Or.inr ⟨_, ht⟩⟩
    · split at hs
      · cases hs; exact ⟨Or.inl rfl, Or.inl rfl⟩
      · simp only [Option.map_eq_some'] at hs
        obtain ⟨t, ht, rfl⟩ := hs
        exact ⟨Or.inl rfl, Or.inr ⟨_, ht⟩⟩
      · cases hs
    · cases hs
    · cases hs
  | osSignal =>
    simp only at hs
    split at hs <;> cases hs
    exact ⟨Or.inl rfl, Or.inl rfl⟩
  | ctlCmd cmd =>
    simp only at hs
    split at hs
    · unfold controlCmd at hs
      split at hs
      · split at hs
        · cases hs; exact ⟨Or.inl rfl, Or.inl rfl⟩
        · simp only [Option.map_eq_some'] at hs
          obtain ⟨t, ht, rfl⟩ := hs
          exact ⟨Or.inr ⟨_, ht⟩, Or.inl rfl⟩
      · split at hs
        · cases hs; exact ⟨Or.inl rfl, Or.inl rfl⟩
        · split at hs <;> cases hs <;> exact ⟨Or.inl rfl, Or.inl rfl⟩
    · cases hs
  | ctlReturn =>
    simp only at hs
    split at hs
    · split at hs <;> cases hs <;> exact ⟨Or.inl rfl, Or.inl rfl⟩
    · cases hs
  | ctlRespond =>
    simp only at hs
    split at hs
    · cases hs; exact ⟨Or.inl rfl, Or.inl rfl⟩
    · cases hs
  | ctlExit =>
    simp only at hs
    split at hs
    · split at hs
      · cases hs
      · cases hs; exact ⟨Or.inl rfl, Or.inl rfl⟩
    · cases hs

/-- In every state that the supervisor reaches from its start, both tasks satisfy the
invariant of the run loop; in particular, for each of them `isRunning` holds exactly when
the task has a process handle for which `Wait` has not returned. -/
theorem supervisor_tasks_Inv (F : Fmt) (svc lgr : String) (alarm : Bool) (es : List SysEvent)
    (s : System) (h : sysRun F (initSystem svc lgr alarm) es = some s) :
    s.inTask.Inv ∧ s.outTask.Inv := by
  have key : ∀ (es : List SysEvent) (s0 : System), s0.inTask.Inv → s0.outTask.Inv →
      sysRun F s0 es = some s → s.inTask.Inv ∧ s.outTask.Inv := by
    intro es
    induction es with
    | nil => intro s0 h1 h2 h3; cases h3; exact ⟨h1, h2⟩
    | cons e es ih =>
      intro s0 h1 h2 h3
      simp only [sysRun, Option.bind_eq_some] at h3
      obtain ⟨s2, h4, h5⟩ := h3
      have h6 := sysStep_tasks h4
      refine ih s2 ?_ ?_ h5
      · rcases h6.1 with h7 | ⟨te, h7⟩
        · rw [h7]; exact h1
        · exact Inv_step h1 h7
      · rcases h6.2 with h7 | ⟨te, h7⟩
        · rw [h7]; exact h2
        · exact Inv_step h2 h7
  exact key es _ (NewTask_Inv svc)
    (by simp [initSystem, NewTask, Task.Inv, Task.quiet, Task.process]) h

end Monsv
